import Mathlib

/-!
Shallow embedding of the core numerical pipeline of the
vehicle_dynamics_Blender repository (src/integrate.py and
src/clean_data_utils.py), together with proofs about it.

Conventions used throughout:
* a 1xn numpy array is embedded as a length `n : Nat` together with a
  function `Nat -> K` giving the entries (entries beyond `n` are junk);
* a 3xn numpy array is embedded as `Fin 3 -> Nat -> K`;
* exact field arithmetic (over the rationals, or over the reals for the
  trigonometric / quaternion parts) idealises floating point arithmetic.
-/

/-! ### integrate.py : piecewise-parabolic (Simpson) integration -/

section SimpsonIntegration

variable {K : Type} [Field K] [DecidableEq K]

/-- Determinant of a 3x3 matrix, as used by np.linalg.inv inside
get_parab_integrator. -/
def det3 (m : Fin 3 → Fin 3 → K) : K :=
  m 0 0 * (m 1 1 * m 2 2 - m 1 2 * m 2 1)
    - m 0 1 * (m 1 0 * m 2 2 - m 1 2 * m 2 0)
    + m 0 2 * (m 1 0 * m 2 1 - m 1 1 * m 2 0)

/-- np.linalg.inv on a 3x3 matrix: the adjugate divided by the determinant. -/
def inv3 (m : Fin 3 → Fin 3 → K) : Fin 3 → Fin 3 → K :=
  let d := det3 m
  ![![ (m 1 1 * m 2 2 - m 1 2 * m 2 1) / d,
       -(m 0 1 * m 2 2 - m 0 2 * m 2 1) / d,
       (m 0 1 * m 1 2 - m 0 2 * m 1 1) / d],
    ![ -(m 1 0 * m 2 2 - m 1 2 * m 2 0) / d,
       (m 0 0 * m 2 2 - m 0 2 * m 2 0) / d,
       -(m 0 0 * m 1 2 - m 0 2 * m 1 0) / d],
    ![ (m 1 0 * m 2 1 - m 1 1 * m 2 0) / d,
       -(m 0 0 * m 2 1 - m 0 1 * m 2 0) / d,
       (m 0 0 * m 1 1 - m 0 1 * m 1 0) / d]]

/-- Coefficients A, B, C of the parabola interpolating the three points
(x i, y i): the linear system of get_parab_integrator solved by matrix
inversion and dot product. -/
def parab_coefficients (x y : Fin 3 → K) : Fin 3 → K :=
  let matrix : Fin 3 → Fin 3 → K :=
    ![![x 0 ^ 2, x 0, 1], ![x 1 ^ 2, x 1, 1], ![x 2 ^ 2, x 2, 1]]
  fun i => inv3 matrix i 0 * y 0 + inv3 matrix i 1 * y 1 + inv3 matrix i 2 * y 2

/-- integrator_fun of get_parab_integrator: the definite integral of the
fitted parabola between the two given abscissae. -/
def integrator_fun (coeffs : Fin 3 → K) (x1 x3 : K) : K :=
  coeffs 0 / 3 * (x3 ^ 3 - x1 ^ 3) + coeffs 1 / 2 * (x3 ^ 2 - x1 ^ 2)
    + coeffs 2 * (x3 - x1)

/-- Parabola coefficients for the 3-sample window starting at column w of
row r: x = times[w:w+3], y = vectors[r, w:w+3]. -/
def window_coeffs (times : ℕ → K) (vectors : Fin 3 → ℕ → K) (r : Fin 3)
    (w : ℕ) : Fin 3 → K :=
  parab_coefficients ![times w, times (w + 1), times (w + 2)]
    ![vectors r w, vectors r (w + 1), vectors r (w + 2)]

/-- simps_integrate_delta (integrate.py): per-column integration deltas of a
3xn vector series over an irregular time grid.  The main loop works on an odd
number `columns` of samples and fills columns 1 .. columns-2 with the first
part of each window parabola and column columns-1 with the second part of the
last window; afterwards, when some component of the final column is still 0
(notably the whole column, when n is even), the final column is refilled from
a parabola over the last three samples. -/
def simps_integrate_delta (n : ℕ) (times : ℕ → K) (vectors : Fin 3 → ℕ → K) :
    Fin 3 → ℕ → K :=
  let columns := if n % 2 = 0 then n - 1 else n
  let main : Fin 3 → ℕ → K := fun r j =>
    if 1 ≤ j ∧ j + 2 ≤ columns then
      integrator_fun (window_coeffs times vectors r (j - 1)) (times (j - 1)) (times j)
    else if 3 ≤ columns ∧ j = columns - 1 then
      integrator_fun (window_coeffs times vectors r (columns - 3))
        (times (columns - 2)) (times (columns - 1))
    else 0
  fun r j =>
    if j = n - 1 ∧ (main 0 (n - 1) = 0 ∨ main 1 (n - 1) = 0 ∨ main 2 (n - 1) = 0) then
      integrator_fun (window_coeffs times vectors r (n - 3)) (times (n - 2)) (times (n - 1))
    else main r j

/-- cumulative_integrate (integrate.py) for a 3-row vector series, giving the
result column at index i.  Column 0 holds the initial value (default 0).
Every later column is the previous column plus the integration delta, except
that when adjustment data and an adjustment frequency are both supplied and
the index is a multiple of the frequency, rows 0 and 1 are written with the
1%/99% blend while row 2 is never written and thus keeps the value 0 the
result array was initialised with. -/
def cumulative_integrate (n : ℕ) (times : ℕ → K) (vectors : Fin 3 → ℕ → K)
    (initial : Option (Fin 3 → K))
    (delta_integrate_func : ℕ → (ℕ → K) → (Fin 3 → ℕ → K) → Fin 3 → ℕ → K)
    (adjust_data : Option (Fin 3 → ℕ → K)) (adjust_frequency : Option ℕ) :
    ℕ → Fin 3 → K
  | 0 => fun r => match initial with
      | none => 0
      | some ini => ini r
  | i + 1 =>
    let delta_vectors := delta_integrate_func n times vectors
    let prev := cumulative_integrate n times vectors initial delta_integrate_func
      adjust_data adjust_frequency i
    match adjust_data, adjust_frequency with
    | some ad, some f =>
      if (i + 1) % f = 0 then
        fun r =>
          if r.val ≤ 1 then
            ad r (i + 1) * (1 / 100) + (prev r + delta_vectors r (i + 1)) * (99 / 100)
          else 0
      else fun r => prev r + delta_vectors r (i + 1)
    | _, _ => fun r => prev r + delta_vectors r (i + 1)

end SimpsonIntegration

/-! ### clean_data_utils.py : arithmetic stages -/

section CleanData

variable {K : Type} [Field K] [DecidableEq K]

/-- Mean over columns [s, e) of row r of a 3xn series: numpy mean(axis=1) on
the slice [:, s:e]. -/
def slice_mean (v : Fin 3 → ℕ → K) (s e : ℕ) (r : Fin 3) : K :=
  (Finset.sum (Finset.Ico s e) fun i => v r i) / ((e - s : ℕ) : K)

/-- sign_inversion_is_necessary (clean_data_utils.py): true when some entry of
the first row of the velocity series is below the -4 m/s speed threshold. -/
def sign_inversion_is_necessary (n : ℕ) (velocities : Fin 3 → ℕ → ℚ) : Bool :=
  (List.range n).any fun i => decide (velocities 0 i < -4)

/-- Length of the Python slice [start, stop) of a 1-dimensional array of the
given length, for the slice bounds produced inside reduce_disturbance. -/
def slice_length (start stop len : ℕ) : ℕ := min stop len - min start len

/-- reduce_disturbance (clean_data_utils.py).  The window_dimension argument
is immediately overwritten with 100 in the function body.  The ten iterations
of the smoothing loop each recompute the same array from the unmodified input
vectors, so one computation of the moving-average array is extensionally
identical; the array holds, at column c, the sum of the up-to-100 following
input columns, divided by 100 from column 50 on.  Both outputs are returned
as a (length, entries) pair. -/
def reduce_disturbance (nt nv : ℕ) (times : ℕ → K) (vectors : Fin 3 → ℕ → K)
    (window_dimension : ℕ) : (ℕ × (ℕ → K)) × (ℕ × (Fin 3 → ℕ → K)) :=
  let window_dimension := 100
  let array : Fin 3 → ℕ → K := fun r c =>
    Finset.sum (Finset.range window_dimension) fun i =>
      if c + i < nv then vectors r (c + i) else 0
  let averaged : Fin 3 → ℕ → K := fun r c =>
    if window_dimension / 2 ≤ c then array r c / (window_dimension : K) else array r c
  let new_low_range := window_dimension / 2
  let new_upper_range := nv - window_dimension / 2
  ((slice_length new_low_range new_upper_range nt, fun i => times (i + new_low_range)),
   (slice_length new_low_range new_upper_range nv, fun r i => averaged r (i + new_low_range)))

/-- One iteration of the loop over the remaining stationary times in
clear_gyro_drift: the local mean over the slice [st.1, st.2) of the current
series is subtracted from the series from index st.1 to the end of the data. -/
def drift_step (w : Fin 3 → ℕ → K) (st : ℕ × ℕ) : Fin 3 → ℕ → K :=
  let offset := slice_mean w st.1 st.2
  fun r i => if st.1 ≤ i then w r i - offset r else w r i

/-- clear_gyro_drift (clean_data_utils.py).  The nonempty list of stationary
times is passed as its head and tail.  The mean over the first stationary
time is removed from the whole series; then, for every further stationary
time, the local mean over that slice is removed from its start index on. -/
def clear_gyro_drift (v : Fin 3 → ℕ → K) (st0 : ℕ × ℕ) (rest : List (ℕ × ℕ)) :
    Fin 3 → ℕ → K :=
  let main_offset := slice_mean v st0.1 st0.2
  let bulk : Fin 3 → ℕ → K := fun r i => v r i - main_offset r
  rest.foldl drift_step bulk

/-- One iteration of the scan inside get_stationary_times, at speed threshold
thr: the state is (first_true, last_true, slices collected so far). -/
def stationary_scan_step (thr : ℚ) (speed : ℕ → ℚ)
    (st : Option ℕ × Option ℕ × List (ℕ × ℕ)) (i : ℕ) :
    Option ℕ × Option ℕ × List (ℕ × ℕ) :=
  let b : Bool := decide (-thr < speed i) && decide (speed i < thr)
  let first := if st.1 = none ∧ b = true then some i else st.1
  let last := if first ≠ none ∧ b = true then some i else st.2.1
  if first ≠ none ∧ last ≠ none ∧ b = false then
    if last.getD 0 - first.getD 0 > 10 then
      (none, none, st.2.2 ++ [(first.getD 0, last.getD 0)])
    else (none, none, st.2.2)
  else (first, last, st.2.2)

/-- One full pass of the scan inside get_stationary_times over a speed series
of length n at a fixed speed threshold, including the final handling of a
stationary time that does not end before the data ends
(min_stationary_time_length is 10). -/
def stationary_scan (n : ℕ) (thr : ℚ) (speed : ℕ → ℚ) : List (ℕ × ℕ) :=
  let st := (List.range n).foldl (stationary_scan_step thr speed) (none, none, [])
  if st.1 ≠ none ∧ st.2.1 ≠ none ∧ st.2.1.getD 0 - st.1.getD 0 > 10 then
    st.2.2 ++ [(st.1.getD 0, st.2.1.getD 0)]
  else st.2.2

/-- The while-loop of get_stationary_times (clean_data_utils.py), with an
explicit fuel bounding how many rounds are observed: each round scans at the
current threshold and, when no slice was found, retries with the threshold
increased by 0.1.  The result none means the scan was still empty after fuel
rounds, so the Python loop would still be running. -/
def get_stationary_times_loop (n : ℕ) (speed : ℕ → ℚ) :
    ℕ → ℚ → Option (List (ℕ × ℕ))
  | 0, _ => none
  | fuel + 1, thr =>
    let r := stationary_scan n thr speed
    if r = [] then get_stationary_times_loop n speed fuel (thr + 1 / 10)
    else some r

/-- get_stationary_times (clean_data_utils.py), starting from the initial
speed threshold 1e-15, observed for fuel rounds of the while-loop. -/
def get_stationary_times (n : ℕ) (speed : ℕ → ℚ) (fuel : ℕ) :
    Option (List (ℕ × ℕ)) :=
  get_stationary_times_loop n speed fuel (1 / 1000000000000000)

end CleanData

/-! ### Quaternions (pyquaternion / numpy-quaternion), integrate.py and
clean_data_utils.py rotation stages -/

noncomputable section RealPipeline

/-- Quaternion with real components, as used by the pyquaternion and
numpy-quaternion libraries. -/
structure Quat : Type where
  w : ℝ
  x : ℝ
  y : ℝ
  z : ℝ

/-- Hamilton product of two quaternions. -/
def qmul (a b : Quat) : Quat :=
  ⟨a.w * b.w - a.x * b.x - a.y * b.y - a.z * b.z,
   a.w * b.x + a.x * b.w + a.y * b.z - a.z * b.y,
   a.w * b.y - a.x * b.z + a.y * b.w + a.z * b.x,
   a.w * b.z + a.x * b.y - a.y * b.x + a.z * b.w⟩

/-- Identity quaternion. -/
def qone : Quat := ⟨1, 0, 0, 0⟩

/-- Quaternion conjugate, the tilde operator of numpy-quaternion. -/
def qconj (a : Quat) : Quat := ⟨a.w, -a.x, -a.y, -a.z⟩

/-- Squared norm of a quaternion. -/
def qnormSq (a : Quat) : ℝ := a.w ^ 2 + a.x ^ 2 + a.y ^ 2 + a.z ^ 2

/-- Division of a quaternion by a real scalar. -/
def qdiv (a : Quat) (c : ℝ) : Quat := ⟨a.w / c, a.x / c, a.y / c, a.z / c⟩

/-- Pure quaternion with the given 3-vector part: Quaternion(vector=v) of
pyquaternion, and quaternion(x, y, z) of numpy-quaternion. -/
def quaternion_of_vector (v : Fin 3 → ℝ) : Quat := ⟨0, v 0, v 1, v 2⟩

/-- Quaternion exponential, as computed by Quaternion.exp (pyquaternion) and
np.exp on quaternions: with r the norm of the vector part, the result is
exp(w) * (cos r + sin r * v / r); at r = 0 the vector terms vanish (0 / 0 is
read as 0, matching the zero-vector branch of the libraries). -/
def qexp (q : Quat) : Quat :=
  let r := Real.sqrt (q.x ^ 2 + q.y ^ 2 + q.z ^ 2)
  ⟨Real.exp q.w * Real.cos r,
   Real.exp q.w * (Real.sin r / r) * q.x,
   Real.exp q.w * (Real.sin r / r) * q.y,
   Real.exp q.w * (Real.sin r / r) * q.z⟩

/-- The reduce of rotate_accelerations (integrate.py): starting from the list
holding only the initial quaternion, every delta quaternion is appended as
the Hamilton product (delta times last accumulated quaternion) — the new
rotation is pre-multiplied. -/
def quaternion_accumulate (l : List Quat) (initial : Quat) : List Quat :=
  l.foldl (fun array element => array ++ [qmul element (array.getLastD qone)]) [initial]

/-- The angular-position quaternion series built by rotate_accelerations
(integrate.py): the delta rotation vectors are the Simpson integration deltas
of the angular velocities (columns 1 to n-1), each is turned into a
quaternion by the exponential of half the delta vector, and the rotations
are accumulated by pre-multiplication onto the initial quaternion (the
exponential of half the initial angular position). -/
def rotate_accelerations_quaternions (n : ℕ) (times : ℕ → ℝ)
    (angular_velocities : Fin 3 → ℕ → ℝ) (initial_angular_position : Fin 3 → ℝ) :
    List Quat :=
  let delta_thetas := simps_integrate_delta n times angular_velocities
  let initial_quaternion := qexp (qdiv (quaternion_of_vector initial_angular_position) 2)
  quaternion_accumulate
    ((List.range (n - 1)).map fun k =>
      qexp (qdiv (quaternion_of_vector fun r => delta_thetas r (k + 1)) 2))
    initial_quaternion

/-- Cross product of two 3-vectors (np.cross). -/
def cross3 (a b : Fin 3 → ℝ) : Fin 3 → ℝ :=
  ![a 1 * b 2 - a 2 * b 1, a 2 * b 0 - a 0 * b 2, a 0 * b 1 - a 1 * b 0]

/-- Dot product of two 3-vectors (np.dot). -/
def dot3 (a b : Fin 3 → ℝ) : ℝ := a 0 * b 0 + a 1 * b 1 + a 2 * b 2

/-- Euclidean norm of a 3-vector (np.linalg.norm). -/
def norm3 (a : Fin 3 → ℝ) : ℝ := Real.sqrt (a 0 ^ 2 + a 1 ^ 2 + a 2 ^ 2)

/-- The vertical axis (0, 0, 1) used by correct_z_orientation. -/
def vertical_axis : Fin 3 → ℝ := ![0, 0, 1]

/-- Rotation of a 3-vector by a quaternion through the sandwich product
(rotator * quaternion(*v) * ~rotator).components[1:]. -/
def quaternion_rotate (rotator : Quat) (v : Fin 3 → ℝ) : Fin 3 → ℝ :=
  let q := qmul (qmul rotator (quaternion_of_vector v)) (qconj rotator)
  ![q.x, q.y, q.z]

/-- align_from_g_vector, the inner function of correct_z_orientation
(clean_data_utils.py): rotation axis is the normalised cross product of the
gravity estimate with the vertical axis, the rotation angle is the arccosine
of the normalised dot product, and the rotation quaternion is the
exponential of half the angle times the unit axis; the rotation is applied
to every sample of both series. -/
def align_from_g_vector (accelerations angular_velocities : Fin 3 → ℕ → ℝ)
    (g : Fin 3 → ℝ) : (Fin 3 → ℕ → ℝ) × (Fin 3 → ℕ → ℝ) :=
  let g_norm := norm3 g
  let u := cross3 g vertical_axis
  let u_unit : Fin 3 → ℝ := fun r => u r / norm3 u
  let theta := Real.arccos (dot3 g vertical_axis / g_norm)
  let rotator := qexp (qdiv (quaternion_of_vector fun r => theta * u_unit r) 2)
  (fun r i => quaternion_rotate rotator (fun s => accelerations s i) r,
   fun r i => quaternion_rotate rotator (fun s => angular_velocities s i) r)

/-- Mean acceleration over the concatenation of all stationary time slices:
np.mean(np.concatenate([...], axis=1), axis=1) in correct_z_orientation. -/
def concatenated_mean (accelerations : Fin 3 → ℕ → ℝ) (sts : List (ℕ × ℕ)) :
    Fin 3 → ℝ := fun r =>
  (sts.map fun st => Finset.sum (Finset.Ico st.1 st.2) fun i => accelerations r i).sum
    / (((sts.map fun st => st.2 - st.1).sum : ℕ) : ℝ)

/-- One iteration of the loop over the remaining stationary times in
correct_z_orientation: the local gravity estimate is recomputed and, when its
angle from the vertical axis exceeds 10 degrees, the whole current series is
re-aligned from it. -/
def correct_z_step (state : (Fin 3 → ℕ → ℝ) × (Fin 3 → ℕ → ℝ)) (st : ℕ × ℕ) :
    (Fin 3 → ℕ → ℝ) × (Fin 3 → ℕ → ℝ) :=
  let g := slice_mean state.1 st.1 st.2
  let bad_align_angle := Real.arccos (dot3 g vertical_axis / norm3 g)
  if bad_align_angle > 10 * (Real.pi / 180) then
    align_from_g_vector state.1 state.2 g
  else state

/-- correct_z_orientation (clean_data_utils.py): the gravity estimate is the
mean over the concatenation of ALL stationary time slices; the resulting
single rotation is applied to every sample of both series; afterwards each
remaining stationary time may trigger a further re-alignment. -/
def correct_z_orientation (accelerations angular_velocities : Fin 3 → ℕ → ℝ)
    (stationary_times : List (ℕ × ℕ)) : (Fin 3 → ℕ → ℝ) × (Fin 3 → ℕ → ℝ) :=
  let g := concatenated_mean accelerations stationary_times
  let state := align_from_g_vector accelerations angular_velocities g
  stationary_times.tail.foldl correct_z_step state

/-- Modelled from the spec words of C4 (spec section 4.4), for the refinement
comparison: the gravity vector estimated as the mean acceleration over the
FIRST stationary interval only, with the single resulting rotation applied to
every sample of both series. -/
def correct_z_claimed (accelerations angular_velocities : Fin 3 → ℕ → ℝ)
    (stationary_times : List (ℕ × ℕ)) : (Fin 3 → ℕ → ℝ) × (Fin 3 → ℕ → ℝ) :=
  let st0 := stationary_times.headD (0, 0)
  align_from_g_vector accelerations angular_velocities
    (slice_mean accelerations st0.1 st0.2)

/-- Modelled from the spec words of C4 (spec section 4.4): the unit
quaternion whose rotation axis is the normalised cross product of the
gravity estimate with the vertical axis and whose rotation angle is the
arccosine of their normalised dot product, written in the axis-angle form
(cosine of the half angle, sine of the half angle times the unit axis) that
the quaternion exponential of the half-angle rotation vector produces. -/
def rotation_from_gravity (g : Fin 3 → ℝ) : Quat :=
  let u := cross3 g vertical_axis
  let u_unit : Fin 3 → ℝ := fun r => u r / norm3 u
  let theta := Real.arccos (dot3 g vertical_axis / norm3 g)
  ⟨Real.cos (theta / 2), Real.sin (theta / 2) * u_unit 0,
   Real.sin (theta / 2) * u_unit 1, Real.sin (theta / 2) * u_unit 2⟩

/-- Threshold above which accelerations along the x and y axis are
considered (clean_data_utils.py module constant). -/
def axy_threshold : ℝ := 0.2

/-- Upper bound paired with axy_threshold. -/
def max_axy_threshold : ℝ := 10

/-- Threshold below which the angular speed around z is considered near
zero (clean_data_utils.py module constant). -/
def g_z_threshold : ℝ := 0.06

/-- One iteration of the scan in filter_contiguous (clean_data_utils.py).
The left summand of the state means the loop ended with break, keeping the
found slice; the right summand carries the running (start, end) pair. -/
def filter_contiguous_step (cond : ℕ → Bool)
    (st : (ℕ × ℕ) ⊕ (Option ℕ × Option ℕ)) (i : ℕ) :
    (ℕ × ℕ) ⊕ (Option ℕ × Option ℕ) :=
  match st with
  | Sum.inl r => Sum.inl r
  | Sum.inr pair =>
    let start := if pair.1 = none ∧ cond i = true then some i else pair.1
    let stop := if start ≠ none ∧ cond i = true then some i else pair.2
    if start ≠ none ∧ stop ≠ none ∧ cond i = false then
      if stop.getD 0 - start.getD 0 > 100 then Sum.inl (start.getD 0, stop.getD 0)
      else Sum.inr (none, none)
    else Sum.inr (start, stop)

/-- filter_contiguous (clean_data_utils.py), reduced to the slice bounds it
returns: the scan stops at the first run of more than 100 contiguous indices
satisfying the condition; a run still open when the data ends is returned
whatever its length; otherwise no slice is returned (the empty array). -/
def filter_contiguous_scan (n : ℕ) (cond : ℕ → Bool) : Option (ℕ × ℕ) :=
  match (List.range n).foldl (filter_contiguous_step cond) (Sum.inr (none, none)) with
  | Sum.inl r => some r
  | Sum.inr (some s, some e) => some (s, e)
  | Sum.inr _ => none

/-- Columns of a slice returned by filter_contiguous: the width e - s of the
slice [:, s:e], or 0 for the empty array. -/
def slice_count (x : Option (ℕ × ℕ)) : ℕ :=
  match x with
  | some (s, e) => e - s
  | none => 0

/-- Boolean array entry: x acceleration above the positive band. -/
def ax_over_threshold (a : Fin 3 → ℕ → ℝ) (i : ℕ) : Bool :=
  decide (a 0 i > axy_threshold ∧ a 0 i < max_axy_threshold)

/-- Boolean array entry: x acceleration inside the negative band. -/
def ax_below_threshold (a : Fin 3 → ℕ → ℝ) (i : ℕ) : Bool :=
  decide (a 0 i < -axy_threshold ∧ a 0 i > -max_axy_threshold)

/-- Boolean array entry: y acceleration above the positive band. -/
def ay_over_threshold (a : Fin 3 → ℕ → ℝ) (i : ℕ) : Bool :=
  decide (a 1 i > axy_threshold ∧ a 1 i < max_axy_threshold)

/-- Boolean array entry: y acceleration inside the negative band. -/
def ay_below_threshold (a : Fin 3 → ℕ → ℝ) (i : ℕ) : Bool :=
  decide (a 1 i < -axy_threshold ∧ a 1 i > -max_axy_threshold)

/-- Boolean array entry: angular speed around z near zero. -/
def gz_below_threshold (w : Fin 3 → ℕ → ℝ) (i : ℕ) : Bool :=
  decide (|w 2 i| < g_z_threshold)

/-- get_bad_alignment_vectors (clean_data_utils.py): the four candidate
slices, one for each sign combination of (ax, ay). -/
def get_bad_alignment_vectors (n : ℕ) (acc gyro : Fin 3 → ℕ → ℝ) :
    Option (ℕ × ℕ) × Option (ℕ × ℕ) × Option (ℕ × ℕ) × Option (ℕ × ℕ) :=
  (filter_contiguous_scan n fun i =>
     ax_over_threshold acc i && ay_over_threshold acc i && gz_below_threshold gyro i,
   filter_contiguous_scan n fun i =>
     ax_below_threshold acc i && ay_over_threshold acc i && gz_below_threshold gyro i,
   filter_contiguous_scan n fun i =>
     ax_over_threshold acc i && ay_below_threshold acc i && gz_below_threshold gyro i,
   filter_contiguous_scan n fun i =>
     ax_below_threshold acc i && ay_below_threshold acc i && gz_below_threshold gyro i)

/-- get_xy_bad_align_count (clean_data_utils.py): the summed widths of the
four candidate slices. -/
def get_xy_bad_align_count (n : ℕ) (acc gyro : Fin 3 → ℕ → ℝ) : ℕ :=
  let v := get_bad_alignment_vectors n acc gyro
  slice_count v.1 + slice_count v.2.1 + slice_count v.2.2.1 + slice_count v.2.2.2

/-- np.arctan2 with its quadrant conventions. -/
def arctan2 (y x : ℝ) : ℝ :=
  if 0 < x then Real.arctan (y / x)
  else if x < 0 ∧ 0 ≤ y then Real.arctan (y / x) + Real.pi
  else if x < 0 ∧ y < 0 then Real.arctan (y / x) - Real.pi
  else if x = 0 ∧ 0 < y then Real.pi / 2
  else if x = 0 ∧ y < 0 then -(Real.pi / 2)
  else 0

/-- rotatexy, the inner function of correct_xy_orientation
(clean_data_utils.py): when the candidate slice is nonempty, the rotation
angle is derived (with quadrant fixes) from the arctangent of the mean
vector of the slice and applied to the x and y acceleration rows; the pair
(new bad-align count, new accelerations) is returned. -/
def rotatexy (n : ℕ) (accelerations angular_velocities : Fin 3 → ℕ → ℝ)
    (bad_align_proof : Option (ℕ × ℕ)) : ℕ × (Fin 3 → ℕ → ℝ) :=
  match bad_align_proof with
  | some (s, e) =>
    if 0 < e - s then
      let vec := slice_mean accelerations s e
      let angle0 := -arctan2 (vec 1) (vec 0)
      let angle := if 0 < vec 1 ∧ vec 0 < 0 then Real.pi + angle0
        else if vec 1 < 0 ∧ vec 0 < 0 then -(Real.pi + angle0)
        else angle0
      let new_accelerations : Fin 3 → ℕ → ℝ := fun r i =>
        if r = 0 then
          Real.cos angle * accelerations 0 i - Real.sin angle * accelerations 1 i
        else if r = 1 then
          Real.sin angle * accelerations 0 i + Real.cos angle * accelerations 1 i
        else accelerations r i
      (get_xy_bad_align_count n new_accelerations angular_velocities, new_accelerations)
    else (get_xy_bad_align_count n accelerations angular_velocities, accelerations)
  | none => (get_xy_bad_align_count n accelerations angular_velocities, accelerations)

/-- correct_xy_orientation (clean_data_utils.py): among the four candidate
slices, the one whose rotation minimises the bad-alignment count is chosen
(the first minimiser, as Python min does) and its rotation is applied. -/
def correct_xy_orientation (n : ℕ) (accelerations angular_velocities : Fin 3 → ℕ → ℝ) :
    Fin 3 → ℕ → ℝ :=
  let v := get_bad_alignment_vectors n accelerations angular_velocities
  let best := [v.2.1, v.2.2.1, v.2.2.2].foldl (fun b c =>
    if (rotatexy n accelerations angular_velocities c).1
        < (rotatexy n accelerations angular_velocities b).1 then c else b) v.1
  (rotatexy n accelerations angular_velocities best).2

/-- The rotation angle correct_xy_orientation derives from the mean vector of
a candidate slice: the negated arctangent of the mean (with the two quadrant
fixes of rotatexy). -/
def xyAngle (vec : Fin 3 → ℝ) : ℝ :=
  let angle0 := -arctan2 (vec 1) (vec 0)
  if 0 < vec 1 ∧ vec 0 < 0 then Real.pi + angle0
  else if vec 1 < 0 ∧ vec 0 < 0 then -(Real.pi + angle0)
  else angle0

/-- The acceleration series rotatexy builds: x and y rows rotated in the
plane by the fixed cosine and sine values co and si, z row untouched. -/
def rotAcc (co si : ℝ) (a : Fin 3 → ℕ → ℝ) : Fin 3 → ℕ → ℝ := fun r i =>
  if r = 0 then co * a 0 i - si * a 1 i
  else if r = 1 then si * a 0 i + co * a 1 i
  else a r i

/-- A concrete 708-sample acceleration series: three 102-sample stationary
misalignment runs covering three sign combinations, a 400-sample stretch of
honest forward acceleration with no sideways component, and a 2-sample
trailing run for the fourth combination. -/
def cexAcc : Fin 3 → ℕ → ℝ := fun r i =>
  if i ≤ 101 then ![(0.3 : ℝ), 0.3, 0] r
  else if i ≤ 203 then ![(-0.3 : ℝ), 0.3, 0] r
  else if i ≤ 305 then ![(0.3 : ℝ), -0.3, 0] r
  else if i ≤ 705 then ![(5 : ℝ), 0.1, 0] r
  else ![(-0.3 : ℝ), -0.3, 0] r

/-- The angular-velocity series paired with cexAcc: identically zero. -/
def cexGyro : Fin 3 → ℕ → ℝ := fun _ _ => 0

/-- cexAcc rotated by the angle the first candidate slice of cexAcc yields
(cosine √2/2, sine -√2/2). -/
def cexAccP : Fin 3 → ℕ → ℝ :=
  rotAcc (Real.sqrt 2 / 2) (-(Real.sqrt 2 / 2)) cexAcc

/-- cexAcc rotated by the angle each of the other three candidate slices of
cexAcc yields (cosine √2/2, sine √2/2). -/
def cexAccQ : Fin 3 → ℕ → ℝ :=
  rotAcc (Real.sqrt 2 / 2) (Real.sqrt 2 / 2) cexAcc

end RealPipeline

/-! ### Theorems: sign inversion check, disturbance filter, stationary times -/

/-- C9: sign_inversion_is_necessary returns true exactly when some entry of
the forward-axis (first) row of the velocity series is below -4 m/s. -/
theorem sign_inversion_is_necessary_iff_C9 (n : ℕ) (v : Fin 3 → ℕ → ℚ) :
    sign_inversion_is_necessary n v = true ↔ ∃ i, i < n ∧ v 0 i < -4 := by
  simp [sign_inversion_is_necessary, List.any_eq_true, List.mem_range]

/-- C10: reduce_disturbance returns identical outputs for any two values of
the window_dimension argument, which is overwritten internally with the
fixed window 100. -/
theorem reduce_disturbance_ignores_window_C10 (nt nv : ℕ) (times : ℕ → ℚ)
    (vectors : Fin 3 → ℕ → ℚ) (w1 w2 : ℕ) :
    reduce_disturbance nt nv times vectors w1
      = reduce_disturbance nt nv times vectors w2 := rfl

/-- C7 (amended): for paired inputs the output timestamp and vector series of
reduce_disturbance have equal length, and for inputs of at least 100 samples
that length is below the input length by exactly 100, the hard-coded internal
window, independently of the window argument. -/
theorem reduce_disturbance_length_C7 (nt nv : ℕ) (times : ℕ → ℚ)
    (vectors : Fin 3 → ℕ → ℚ) (w : ℕ) (hlen : nt = nv) :
    ((reduce_disturbance nt nv times vectors w).1.1
       = (reduce_disturbance nt nv times vectors w).2.1) ∧
    (100 ≤ nt →
      (reduce_disturbance nt nv times vectors w).1.1 = nt - 100 ∧
      nt - (reduce_disturbance nt nv times vectors w).1.1 = 100) := by
  subst hlen
  refine ⟨rfl, fun h => ?_⟩
  have : (reduce_disturbance nt nt times vectors w).1.1
      = slice_length 50 (nt - 50) nt := rfl
  rw [this]
  unfold slice_length
  omega

/-- Witness for C7 at a concrete input of 150 paired samples and window
argument 7. -/
theorem reduce_disturbance_length_C7_witness :
    ((reduce_disturbance 150 150 (fun _ => (0 : ℚ)) (fun _ _ => 0) 7).1.1
       = (reduce_disturbance 150 150 (fun _ => (0 : ℚ)) (fun _ _ => 0) 7).2.1) ∧
    (reduce_disturbance 150 150 (fun _ => (0 : ℚ)) (fun _ _ => 0) 7).1.1 = 150 - 100 :=
  ⟨(reduce_disturbance_length_C7 150 150 _ _ 7 rfl).1,
   ((reduce_disturbance_length_C7 150 150 _ _ 7 rfl).2 (by norm_num)).1⟩

/-- C7 (counterexample to the claim as stated): with 1000 paired samples and
window argument 10, the number of dropped samples is 100, not approximately
the given window size 10 (it is not even within 10 of it). -/
theorem reduce_disturbance_drop_not_window_C7_cex :
    (reduce_disturbance 1000 1000 (fun _ => (0 : ℚ)) (fun _ _ => 0) 10).1.1 = 900 ∧
    1000 - (reduce_disturbance 1000 1000 (fun _ => (0 : ℚ)) (fun _ _ => 0) 10).1.1 = 100 ∧
    ¬ (1000 - (reduce_disturbance 1000 1000 (fun _ => (0 : ℚ)) (fun _ _ => 0) 10).1.1
        ≤ 10 + 10) := by
  refine ⟨?_, ?_, ?_⟩ <;> decide

/-- At every threshold, the scan of get_stationary_times finds no stationary
time in a speed series of 11 samples, all at 1000 m/s: whatever the
threshold, the longest candidate slice spans indices 0 to 10 and fails the
strict length test 10 > 10. -/
theorem stationary_scan_const_1000_empty (thr : ℚ) :
    stationary_scan 11 thr (fun _ => 1000) = [] := by
  have hr : List.range 11 = [0, 1, 2, 3, 4, 5, 6, 7, 8, 9, 10] := rfl
  by_cases h1 : -thr < 1000
  · by_cases h2 : (1000 : ℚ) < thr
    · simp [stationary_scan, stationary_scan_step, hr, decide_eq_true h1, decide_eq_true h2]
    · simp [stationary_scan, stationary_scan_step, hr, decide_eq_true h1, decide_eq_false h2]
  · by_cases h2 : (1000 : ℚ) < thr
    · simp [stationary_scan, stationary_scan_step, hr, decide_eq_false h1, decide_eq_true h2]
    · simp [stationary_scan, stationary_scan_step, hr, decide_eq_false h1, decide_eq_false h2]

/-- C2 (code evaluated on the failing input): on a speed series of 11 samples
at 1000 m/s, the while-loop of get_stationary_times is still running after
any number of threshold-widening rounds; the threshold grows without any cap
and no error is ever raised. -/
theorem get_stationary_times_no_cap_C2 (fuel : ℕ) :
    get_stationary_times 11 (fun _ => 1000) fuel = none := by
  unfold get_stationary_times
  generalize (1 / 1000000000000000 : ℚ) = thr
  induction fuel generalizing thr with
  | zero => rfl
  | succ k ih =>
    rw [get_stationary_times_loop]
    simp only [stationary_scan_const_1000_empty]
    simpa using ih _

/-! ### Theorems: gyroscope bias corrector -/

section DriftLemmas

variable {K : Type} [Field K] [DecidableEq K]

omit [DecidableEq K] in
theorem slice_mean_congr (v w : Fin 3 → ℕ → K) (s e : ℕ) (r : Fin 3)
    (h : ∀ i, s ≤ i → i < e → v r i = w r i) :
    slice_mean v s e r = slice_mean w s e r := by
  unfold slice_mean
  congr 1
  refine Finset.sum_congr rfl fun i hi => ?_
  rw [Finset.mem_Ico] at hi
  exact h i hi.1 hi.2

omit [DecidableEq K] in
theorem slice_mean_sub_const [CharZero K] (v : Fin 3 → ℕ → K) (c : Fin 3 → K) (s e : ℕ)
    (h : s < e) (r : Fin 3) :
    slice_mean (fun r i => v r i - c r) s e r = slice_mean v s e r - c r := by
  have hne : ((e - s : ℕ) : K) ≠ 0 := Nat.cast_ne_zero.mpr (by omega)
  unfold slice_mean
  rw [Finset.sum_sub_distrib, Finset.sum_const, Nat.card_Ico, sub_div, nsmul_eq_mul,
    mul_div_cancel_left₀ _ hne]

omit [DecidableEq K] in
theorem drift_step_mean_zero [CharZero K] (w : Fin 3 → ℕ → K) (st : ℕ × ℕ)
    (h : st.1 < st.2) (r : Fin 3) :
    slice_mean (drift_step w st) st.1 st.2 r = 0 := by
  have h1 : slice_mean (drift_step w st) st.1 st.2 r
      = slice_mean (fun r i => w r i - slice_mean w st.1 st.2 r) st.1 st.2 r := by
    refine slice_mean_congr _ _ _ _ _ fun i hi _ => ?_
    simp [drift_step, hi]
  rw [h1, slice_mean_sub_const _ _ _ _ h, sub_self]

omit [DecidableEq K] in
theorem foldl_drift_preserves (L : List (ℕ × ℕ)) (w : Fin 3 → ℕ → K) (i : ℕ)
    (h : ∀ st ∈ L, i < st.1) (r : Fin 3) :
    L.foldl drift_step w r i = w r i := by
  induction L generalizing w with
  | nil => rfl
  | cons st L ih =>
    rw [List.foldl_cons, ih _ fun s hs => h s (List.mem_cons_of_mem _ hs)]
    have hst : ¬ st.1 ≤ i := by
      have := h st (List.mem_cons_self _ _)
      omega
    simp [drift_step, hst]

omit [DecidableEq K] in
theorem foldl_drift_mean_preserves (L : List (ℕ × ℕ)) (w : Fin 3 → ℕ → K) (s e : ℕ)
    (h : ∀ st ∈ L, e ≤ st.1) (r : Fin 3) :
    slice_mean (L.foldl drift_step w) s e r = slice_mean w s e r := by
  refine slice_mean_congr _ _ _ _ _ fun i _ hi => ?_
  exact foldl_drift_preserves L w i (fun st hst => lt_of_lt_of_le hi (h st hst)) r

end DriftLemmas

/-- C6: for an ordered list of nonempty stationary times, clear_gyro_drift
subtracts the first stationary time's mean from the whole series and, for
each later stationary time, that time's local mean from its start index
onward only (indices lying before every later stationary time keep exactly
the bulk correction); afterwards, the mean angular velocity over every
stationary time is exactly zero. -/
theorem clear_gyro_drift_C6 (v : Fin 3 → ℕ → ℚ) (st0 : ℕ × ℕ) (rest : List (ℕ × ℕ))
    (hord : List.Pairwise (fun a b => a.2 ≤ b.1) (st0 :: rest))
    (hval : ∀ st ∈ st0 :: rest, st.1 < st.2) :
    (∀ st ∈ st0 :: rest, ∀ r,
        slice_mean (clear_gyro_drift v st0 rest) st.1 st.2 r = 0) ∧
    (∀ r i, (∀ st ∈ rest, i < st.1) →
        clear_gyro_drift v st0 rest r i = v r i - slice_mean v st0.1 st0.2 r) := by
  constructor
  · intro st hst r
    rcases List.mem_cons.mp hst with h0 | hmem
    · rw [h0]
      have hge : ∀ s ∈ rest, st0.2 ≤ s.1 := (List.pairwise_cons.mp hord).1
      have hpres : slice_mean (clear_gyro_drift v st0 rest) st0.1 st0.2 r
          = slice_mean (fun r i => v r i - slice_mean v st0.1 st0.2 r) st0.1 st0.2 r :=
        foldl_drift_mean_preserves rest _ st0.1 st0.2 hge r
      rw [hpres, slice_mean_sub_const _ _ _ _ (hval st0 (List.mem_cons_self _ _)), sub_self]
    · obtain ⟨L1, L2, rfl⟩ := List.append_of_mem hmem
      have hpw : List.Pairwise (fun a b : ℕ × ℕ => a.2 ≤ b.1) (st :: L2) :=
        ((List.pairwise_cons.mp hord).2).sublist (List.sublist_append_right _ _)
      have hge2 : ∀ s ∈ L2, st.2 ≤ s.1 := (List.pairwise_cons.mp hpw).1
      have hrw : clear_gyro_drift v st0 (L1 ++ st :: L2)
          = L2.foldl drift_step (drift_step
              (L1.foldl drift_step (fun r i => v r i - slice_mean v st0.1 st0.2 r)) st) := by
        show (L1 ++ st :: L2).foldl drift_step _ = _
        rw [List.foldl_append, List.foldl_cons]
      rw [hrw, foldl_drift_mean_preserves L2 _ st.1 st.2 hge2 r,
        drift_step_mean_zero _ _ (hval st hst) r]
  · intro r i hi
    exact foldl_drift_preserves rest _ i hi r

/-- Witness for C6 at the concrete series v r i = i with stationary times
(0,2) and (3,5). -/
theorem clear_gyro_drift_C6_witness :
    slice_mean (clear_gyro_drift (fun _ i => (i : ℚ)) (0, 2) [(3, 5)]) 3 5 0 = 0 ∧
    clear_gyro_drift (fun _ i => (i : ℚ)) (0, 2) [(3, 5)] 0 2 =
      (fun _ i => (i : ℚ)) 0 2 - slice_mean (fun _ i => (i : ℚ)) 0 2 0 :=
  ⟨(clear_gyro_drift_C6 _ _ _ (by decide) (by decide)).1 (3, 5) (by decide) 0,
   (clear_gyro_drift_C6 _ _ _ (by decide) (by decide)).2 0 2 (by decide)⟩

/-! ### Theorems: cumulative integration and the altitude row -/

/-- C1 (code evaluated at the failing input): integrating the vector series
with x and y rows 0 and z (altitude) row constant 1 over times 0,1,2,3, with
adjustment data 0 and adjustment period 2, the altitude component of the
result at the adjustment index 2 is 0 — the code never writes the third row
at an adjustment index, so it keeps the 0 the result array was initialised
with — while the pure cumulative integration (no adjustment supplied) of the
very same series carries the accumulated value 2 there. -/
theorem cumulative_integrate_drops_altitude_C1 :
    cumulative_integrate 4 (fun i => (i : ℚ)) (fun r i => if r = 2 then 1 else 0)
        none simps_integrate_delta (some fun _ _ => 0) (some 2) 2 2 = 0 ∧
    cumulative_integrate 4 (fun i => (i : ℚ)) (fun r i => if r = 2 then 1 else 0)
        none simps_integrate_delta none none 2 2 = 2 := by
  have hdelta : ∀ j, 1 ≤ j → j ≤ 2 →
      simps_integrate_delta 4 (fun i => (i : ℚ)) (fun r i => if r = 2 then 1 else 0) 2 j
        = 1 := by
    intro j h1 h2
    interval_cases j <;>
      norm_num [simps_integrate_delta, window_coeffs, parab_coefficients, inv3, det3,
        integrator_fun, Matrix.cons_val_zero, Matrix.cons_val_one, Matrix.head_cons,
        Fin.isValue, Matrix.vecHead, Matrix.vecTail]
  constructor
  · rfl
  · have e2 : cumulative_integrate 4 (fun i => (i : ℚ)) (fun r i => if r = 2 then 1 else 0)
        none simps_integrate_delta none none 2 2
        = cumulative_integrate 4 (fun i => (i : ℚ)) (fun r i => if r = 2 then 1 else 0)
            none simps_integrate_delta none none 1 2
          + simps_integrate_delta 4 (fun i => (i : ℚ)) (fun r i => if r = 2 then 1 else 0) 2 2 := rfl
    have e1 : cumulative_integrate 4 (fun i => (i : ℚ)) (fun r i => if r = 2 then 1 else 0)
        none simps_integrate_delta none none 1 2
        = 0 + simps_integrate_delta 4 (fun i => (i : ℚ)) (fun r i => if r = 2 then 1 else 0) 2 1 := rfl
    rw [e2, e1, hdelta 1 (by norm_num) (by norm_num), hdelta 2 (by norm_num) (by norm_num)]
    norm_num

/-! ### Theorems: attitude quaternion series -/

theorem qnormSq_qmul (a b : Quat) : qnormSq (qmul a b) = qnormSq a * qnormSq b := by
  unfold qnormSq qmul
  ring

theorem sq_sum_eq_zero_parts {a b c : ℝ} (h : a ^ 2 + b ^ 2 + c ^ 2 = 0) :
    a = 0 ∧ b = 0 ∧ c = 0 := by
  refine ⟨?_, ?_, ?_⟩ <;> nlinarith [sq_nonneg a, sq_nonneg b, sq_nonneg c]

theorem qnormSq_qexp_pure (q : Quat) (hw : q.w = 0) : qnormSq (qexp q) = 1 := by
  unfold qexp qnormSq
  rw [hw, Real.exp_zero]
  set s := q.x ^ 2 + q.y ^ 2 + q.z ^ 2 with hs
  have hsnn : 0 ≤ s := by positivity
  have hsq : Real.sqrt s ^ 2 = s := Real.sq_sqrt hsnn
  by_cases h0 : s = 0
  · obtain ⟨hx0, hy0, hz0⟩ := sq_sum_eq_zero_parts (hs ▸ h0)
    simp [h0, hx0, hy0, hz0]
  · have hr : Real.sqrt s ≠ 0 := by
      intro hcon
      apply h0
      rw [← hsq, hcon]
      norm_num
    have key : (Real.sin (Real.sqrt s) / Real.sqrt s) ^ 2 * s = Real.sin (Real.sqrt s) ^ 2 := by
      rw [div_pow, hsq]
      field_simp
    have expand : (1 * Real.cos (Real.sqrt s)) ^ 2
        + (1 * (Real.sin (Real.sqrt s) / Real.sqrt s) * q.x) ^ 2
        + (1 * (Real.sin (Real.sqrt s) / Real.sqrt s) * q.y) ^ 2
        + (1 * (Real.sin (Real.sqrt s) / Real.sqrt s) * q.z) ^ 2
        = Real.cos (Real.sqrt s) ^ 2 + (Real.sin (Real.sqrt s) / Real.sqrt s) ^ 2 * s := by
      rw [hs]
      ring
    rw [expand, key, add_comm]
    exact Real.sin_sq_add_cos_sq (Real.sqrt s)

theorem quaternion_accumulate_append (l : List Quat) (q : Quat) (initial : Quat) :
    quaternion_accumulate (l ++ [q]) initial
      = quaternion_accumulate l initial
        ++ [qmul q ((quaternion_accumulate l initial).getLastD qone)] := by
  unfold quaternion_accumulate
  rw [List.foldl_append]
  rfl

theorem quaternion_accumulate_length (l : List Quat) (initial : Quat) :
    (quaternion_accumulate l initial).length = l.length + 1 := by
  induction l using List.reverseRecOn with
  | nil => rfl
  | append_singleton l q ih => simp [quaternion_accumulate_append, ih]

theorem quaternion_accumulate_getD_zero (l : List Quat) (initial : Quat) :
    (quaternion_accumulate l initial).getD 0 qone = initial := by
  induction l using List.reverseRecOn with
  | nil => rfl
  | append_singleton l q ih =>
    rw [quaternion_accumulate_append,
      List.getD_append _ _ _ _ (by rw [quaternion_accumulate_length]; omega)]
    exact ih

theorem quaternion_accumulate_getLastD (l : List Quat) (initial : Quat) :
    (quaternion_accumulate l initial).getLastD qone
      = (quaternion_accumulate l initial).getD l.length qone := by
  induction l using List.reverseRecOn with
  | nil => rfl
  | append_singleton l q ih =>
    rw [quaternion_accumulate_append, List.getLastD_concat,
      List.getD_append_right _ _ _ _ (by simp [quaternion_accumulate_length])]
    rw [quaternion_accumulate_length, List.length_append, List.length_singleton,
      Nat.sub_self, List.getD_cons_zero]

theorem quaternion_accumulate_getD_succ (l : List Quat) (initial : Quat) (i : ℕ)
    (h : i < l.length) :
    (quaternion_accumulate l initial).getD (i + 1) qone
      = qmul (l.getD i qone) ((quaternion_accumulate l initial).getD i qone) := by
  induction l using List.reverseRecOn with
  | nil => simp at h
  | append_singleton l q ih =>
    rw [List.length_append, List.length_singleton] at h
    rw [quaternion_accumulate_append]
    rcases Nat.lt_succ_iff_lt_or_eq.mp h with h1 | h1
    · have la : (quaternion_accumulate l initial
            ++ [qmul q ((quaternion_accumulate l initial).getLastD qone)]).getD (i + 1) qone
          = (quaternion_accumulate l initial).getD (i + 1) qone :=
        List.getD_append _ _ _ _ (by rw [quaternion_accumulate_length]; omega)
      have lb : (quaternion_accumulate l initial
            ++ [qmul q ((quaternion_accumulate l initial).getLastD qone)]).getD i qone
          = (quaternion_accumulate l initial).getD i qone :=
        List.getD_append _ _ _ _ (by rw [quaternion_accumulate_length]; omega)
      have lc : (l ++ [q]).getD i qone = l.getD i qone := List.getD_append _ _ _ _ h1
      rw [la, lb, lc]
      exact ih h1
    · subst h1
      have la : (quaternion_accumulate l initial
            ++ [qmul q ((quaternion_accumulate l initial).getLastD qone)]).getD
              (l.length + 1) qone
          = qmul q ((quaternion_accumulate l initial).getLastD qone) := by
        rw [List.getD_append_right _ _ _ _ (by rw [quaternion_accumulate_length])]
        rw [quaternion_accumulate_length, Nat.sub_self, List.getD_cons_zero]
      have lb : (quaternion_accumulate l initial
            ++ [qmul q ((quaternion_accumulate l initial).getLastD qone)]).getD l.length qone
          = (quaternion_accumulate l initial).getD l.length qone :=
        List.getD_append _ _ _ _ (by rw [quaternion_accumulate_length]; omega)
      have lc : (l ++ [q]).getD l.length qone = q := by
        rw [List.getD_append_right _ _ _ _ (le_refl _), Nat.sub_self, List.getD_cons_zero]
      rw [la, lb, lc, quaternion_accumulate_getLastD]

theorem quaternion_accumulate_unit (l : List Quat) (initial : Quat)
    (h0 : qnormSq initial = 1) (hl : ∀ q ∈ l, qnormSq q = 1) :
    ∀ q ∈ quaternion_accumulate l initial, qnormSq q = 1 := by
  induction l using List.reverseRecOn with
  | nil =>
    intro q hq
    simp only [quaternion_accumulate, List.foldl_nil, List.mem_singleton] at hq
    rw [hq]
    exact h0
  | append_singleton l x ih =>
    intro q hq
    rw [quaternion_accumulate_append] at hq
    rcases List.mem_append.mp hq with h | h
    · exact ih (fun p hp => hl p (List.mem_append_left _ hp)) q h
    · rw [List.mem_singleton.mp h, qnormSq_qmul]
      have hx : qnormSq x = 1 := hl x (List.mem_append_right _ (List.mem_singleton_self x))
      have hlast : qnormSq ((quaternion_accumulate l initial).getLastD qone) = 1 := by
        rw [quaternion_accumulate_getLastD,
          List.getD_eq_getElem _ _ (by rw [quaternion_accumulate_length]; omega)]
        exact ih (fun p hp => hl p (List.mem_append_left _ hp)) _
          (List.getElem_mem (by rw [quaternion_accumulate_length]; omega))
      rw [hx, hlast]
      norm_num

theorem quaternion_accumulate_getD_unit (l : List Quat) (initial : Quat)
    (h0 : qnormSq initial = 1) (hl : ∀ q ∈ l, qnormSq q = 1) (i : ℕ) :
    qnormSq ((quaternion_accumulate l initial).getD i qone) = 1 := by
  by_cases hi : i < (quaternion_accumulate l initial).length
  · rw [List.getD_eq_getElem _ _ hi]
    exact quaternion_accumulate_unit l initial h0 hl _ (List.getElem_mem hi)
  · rw [List.getD_eq_default _ _ (by omega)]
    unfold qnormSq qone
    norm_num

theorem getD_map_range {α : Type} (f : ℕ → α) (m k : ℕ) (d : α) (h : k < m) :
    ((List.range m).map f).getD k d = f k := by
  rw [List.getD_eq_getElem _ _ (by simpa using h)]
  simp

theorem rotate_accelerations_quaternions_length (n : ℕ) (times : ℕ → ℝ)
    (angular_velocities : Fin 3 → ℕ → ℝ) (initial_angular_position : Fin 3 → ℝ) :
    (rotate_accelerations_quaternions n times angular_velocities
        initial_angular_position).length = (n - 1) + 1 := by
  show (quaternion_accumulate _ _).length = _
  rw [quaternion_accumulate_length]
  simp

/-- C3: every attitude quaternion of rotate_accelerations with index at least
1 equals the Hamilton product (delta quaternion) times (previous accumulated
quaternion), where the delta quaternion is the quaternion exponential of half
the i-th Simpson integration delta of the angular velocities: the new delta
rotation is pre-multiplied onto the accumulated attitude. -/
theorem rotate_accelerations_premultiplies_C3 (n : ℕ) (times : ℕ → ℝ)
    (angular_velocities : Fin 3 → ℕ → ℝ) (initial_angular_position : Fin 3 → ℝ)
    (i : ℕ) (h1 : 1 ≤ i)
    (h2 : i < (rotate_accelerations_quaternions n times angular_velocities
        initial_angular_position).length) :
    (rotate_accelerations_quaternions n times angular_velocities
        initial_angular_position).getD i qone
      = qmul
          (qexp (qdiv (quaternion_of_vector fun r =>
            simps_integrate_delta n times angular_velocities r i) 2))
          ((rotate_accelerations_quaternions n times angular_velocities
              initial_angular_position).getD (i - 1) qone) := by
  obtain ⟨k, rfl⟩ : ∃ k, i = k + 1 := ⟨i - 1, by omega⟩
  rw [rotate_accelerations_quaternions_length] at h2
  have hlen : k < ((List.range (n - 1)).map fun kk =>
      qexp (qdiv (quaternion_of_vector fun r =>
        simps_integrate_delta n times angular_velocities r (kk + 1)) 2)).length := by
    simpa using (by omega : k < n - 1)
  have hstep := quaternion_accumulate_getD_succ
    ((List.range (n - 1)).map fun kk =>
      qexp (qdiv (quaternion_of_vector fun r =>
        simps_integrate_delta n times angular_velocities r (kk + 1)) 2))
    (qexp (qdiv (quaternion_of_vector initial_angular_position) 2)) k hlen
  rw [getD_map_range _ _ _ _ (by omega : k < n - 1)] at hstep
  show (quaternion_accumulate _ _).getD (k + 1) qone = _
  rw [hstep]
  rfl

/-- Witness for C3 on the concrete input n = 3, times i = i, zero angular
velocities, zero initial angular position, at index 1. -/
theorem rotate_accelerations_premultiplies_C3_witness :
    1 ≤ 1 ∧
    (rotate_accelerations_quaternions 3 (fun i => (i : ℝ)) (fun _ _ => 0)
        (fun _ => 0)).getD 1 qone
      = qmul
          (qexp (qdiv (quaternion_of_vector fun r =>
            simps_integrate_delta 3 (fun i => (i : ℝ)) (fun _ _ => 0) r 1) 2))
          ((rotate_accelerations_quaternions 3 (fun i => (i : ℝ)) (fun _ _ => 0)
              (fun _ => 0)).getD 0 qone) :=
  ⟨le_refl 1,
   rotate_accelerations_premultiplies_C3 3 (fun i => (i : ℝ)) (fun _ _ => 0) (fun _ => 0) 1
     (le_refl 1) (by rw [rotate_accelerations_quaternions_length]; omega)⟩

/-- C8: every quaternion of the attitude series of rotate_accelerations has
norm 1 (so within 1e-9 of 1); the quaternion at index 0 is the configured
initial orientation, the exponential of half the initial angular position,
and it is the identity quaternion when the initial angular position is the
zero vector. -/
theorem rotate_accelerations_unit_C8 (n : ℕ) (times : ℕ → ℝ)
    (angular_velocities : Fin 3 → ℕ → ℝ) (initial_angular_position : Fin 3 → ℝ) :
    (∀ i, i < (rotate_accelerations_quaternions n times angular_velocities
        initial_angular_position).length →
      |Real.sqrt (qnormSq ((rotate_accelerations_quaternions n times angular_velocities
          initial_angular_position).getD i qone)) - 1| ≤ 1 / 1000000000) ∧
    (rotate_accelerations_quaternions n times angular_velocities
        initial_angular_position).getD 0 qone
      = qexp (qdiv (quaternion_of_vector initial_angular_position) 2) ∧
    (initial_angular_position = (fun _ => 0) →
      (rotate_accelerations_quaternions n times angular_velocities
          initial_angular_position).getD 0 qone = qone) := by
  have hzero : (rotate_accelerations_quaternions n times angular_velocities
      initial_angular_position).getD 0 qone
      = qexp (qdiv (quaternion_of_vector initial_angular_position) 2) := by
    show (quaternion_accumulate _ _).getD 0 qone = _
    exact quaternion_accumulate_getD_zero _ _
  refine ⟨?_, hzero, ?_⟩
  · intro i hi
    have hn : qnormSq ((rotate_accelerations_quaternions n times angular_velocities
        initial_angular_position).getD i qone) = 1 := by
      show qnormSq ((quaternion_accumulate _ _).getD i qone) = 1
      apply quaternion_accumulate_getD_unit
      · exact qnormSq_qexp_pure _ (by simp [qdiv, quaternion_of_vector])
      · intro q hq
        rw [List.mem_map] at hq
        obtain ⟨k, _, rfl⟩ := hq
        exact qnormSq_qexp_pure _ (by simp [qdiv, quaternion_of_vector])
    rw [hn, Real.sqrt_one]
    norm_num
  · intro h0
    rw [hzero, h0]
    norm_num [qexp, qdiv, quaternion_of_vector, qone, Real.sqrt_zero, Real.cos_zero,
      Real.exp_zero, Quat.mk.injEq]

/-- Witness for C8 on the concrete input n = 2, times i = i, zero angular
velocities, zero initial angular position, at index 0. -/
theorem rotate_accelerations_unit_C8_witness :
    |Real.sqrt (qnormSq ((rotate_accelerations_quaternions 2 (fun i => (i : ℝ))
        (fun _ _ => 0) (fun _ => 0)).getD 0 qone)) - 1| ≤ 1 / 1000000000 ∧
    (rotate_accelerations_quaternions 2 (fun i => (i : ℝ)) (fun _ _ => 0)
        (fun _ => 0)).getD 0 qone = qone :=
  ⟨(rotate_accelerations_unit_C8 2 (fun i => (i : ℝ)) (fun _ _ => 0) (fun _ => 0)).1 0
     (by rw [rotate_accelerations_quaternions_length]; omega),
   (rotate_accelerations_unit_C8 2 (fun i => (i : ℝ)) (fun _ _ => 0) (fun _ => 0)).2.2 rfl⟩

/-! ### Theorems: z-axis orientation aligner -/

theorem quaternion_rotate_components (a b c d x y z : ℝ) (r : Fin 3) :
    quaternion_rotate ⟨a, b, c, d⟩ ![x, y, z] r
      = ![(a ^ 2 + b ^ 2 - c ^ 2 - d ^ 2) * x + 2 * (b * c - a * d) * y
            + 2 * (b * d + a * c) * z,
          2 * (b * c + a * d) * x + (a ^ 2 - b ^ 2 + c ^ 2 - d ^ 2) * y
            + 2 * (c * d - a * b) * z,
          2 * (b * d - a * c) * x + 2 * (c * d + a * b) * y
            + (a ^ 2 - b ^ 2 - c ^ 2 + d ^ 2) * z] r := by
  fin_cases r <;>
    simp [quaternion_rotate, qmul, qconj, quaternion_of_vector, Matrix.cons_val_zero,
      Matrix.cons_val_one, Matrix.head_cons] <;>
    ring

theorem qexp_pure_smul_unit (k : ℝ) (u : Fin 3 → ℝ)
    (hu : u 0 ^ 2 + u 1 ^ 2 + u 2 ^ 2 = 1) (hk : 0 ≤ k) :
    qexp (quaternion_of_vector fun r => k * u r)
      = ⟨Real.cos k, Real.sin k * u 0, Real.sin k * u 1, Real.sin k * u 2⟩ := by
  have hr : Real.sqrt ((k * u 0) ^ 2 + (k * u 1) ^ 2 + (k * u 2) ^ 2) = k := by
    have : (k * u 0) ^ 2 + (k * u 1) ^ 2 + (k * u 2) ^ 2 = k ^ 2 := by
      have : (k * u 0) ^ 2 + (k * u 1) ^ 2 + (k * u 2) ^ 2
          = k ^ 2 * (u 0 ^ 2 + u 1 ^ 2 + u 2 ^ 2) := by ring
      rw [this, hu, mul_one]
    rw [this]
    exact Real.sqrt_sq hk
  by_cases h0 : k = 0
  · subst h0
    unfold qexp quaternion_of_vector
    norm_num [Real.sqrt_zero, Real.cos_zero, Real.sin_zero, Real.exp_zero]
  · unfold qexp quaternion_of_vector
    simp only [Real.exp_zero, one_mul]
    rw [hr]
    have hdiv : ∀ t, Real.sin k / k * (k * t) = Real.sin k * t := by
      intro t
      field_simp
      ring
    rw [hdiv, hdiv, hdiv]

theorem align_from_g_vector_rotator (acc omega : Fin 3 → ℕ → ℝ) (g : Fin 3 → ℝ)
    (hu : norm3 (cross3 g vertical_axis) ≠ 0) :
    align_from_g_vector acc omega g
      = (fun r i => quaternion_rotate (rotation_from_gravity g) (fun s => acc s i) r,
         fun r i => quaternion_rotate (rotation_from_gravity g) (fun s => omega s i) r) := by
  have hnn : 0 ≤ (cross3 g vertical_axis 0) ^ 2 + (cross3 g vertical_axis 1) ^ 2
      + (cross3 g vertical_axis 2) ^ 2 := by positivity
  have hsq : norm3 (cross3 g vertical_axis) ^ 2
      = (cross3 g vertical_axis 0) ^ 2 + (cross3 g vertical_axis 1) ^ 2
        + (cross3 g vertical_axis 2) ^ 2 := Real.sq_sqrt hnn
  have hunit : (cross3 g vertical_axis 0 / norm3 (cross3 g vertical_axis)) ^ 2
      + (cross3 g vertical_axis 1 / norm3 (cross3 g vertical_axis)) ^ 2
      + (cross3 g vertical_axis 2 / norm3 (cross3 g vertical_axis)) ^ 2 = 1 := by
    have h1 : (cross3 g vertical_axis 0 / norm3 (cross3 g vertical_axis)) ^ 2
        + (cross3 g vertical_axis 1 / norm3 (cross3 g vertical_axis)) ^ 2
        + (cross3 g vertical_axis 2 / norm3 (cross3 g vertical_axis)) ^ 2
        = ((cross3 g vertical_axis 0) ^ 2 + (cross3 g vertical_axis 1) ^ 2
            + (cross3 g vertical_axis 2) ^ 2) / norm3 (cross3 g vertical_axis) ^ 2 := by
      ring
    rw [h1, ← hsq, div_self (pow_ne_zero 2 hu)]
  have htheta : 0 ≤ Real.arccos (dot3 g vertical_axis / norm3 g) / 2 :=
    div_nonneg (Real.arccos_nonneg _) (by norm_num)
  have hvec : (fun r => Real.arccos (dot3 g vertical_axis / norm3 g)
        * (cross3 g vertical_axis r / norm3 (cross3 g vertical_axis)) / 2)
      = fun r => (Real.arccos (dot3 g vertical_axis / norm3 g) / 2)
        * (cross3 g vertical_axis r / norm3 (cross3 g vertical_axis)) := by
    funext r
    ring
  have hrotator : qexp (qdiv (quaternion_of_vector fun r =>
        Real.arccos (dot3 g vertical_axis / norm3 g)
          * (cross3 g vertical_axis r / norm3 (cross3 g vertical_axis))) 2)
      = rotation_from_gravity g := by
    have hq : qdiv (quaternion_of_vector fun r =>
          Real.arccos (dot3 g vertical_axis / norm3 g)
            * (cross3 g vertical_axis r / norm3 (cross3 g vertical_axis))) 2
        = quaternion_of_vector fun r =>
            (Real.arccos (dot3 g vertical_axis / norm3 g) / 2)
              * (cross3 g vertical_axis r / norm3 (cross3 g vertical_axis)) := by
      unfold qdiv quaternion_of_vector
      simp only [Quat.mk.injEq]
      refine ⟨by norm_num, by ring, by ring, by ring⟩
    rw [hq, qexp_pure_smul_unit _ _ hunit htheta]
    rfl
  show (fun r i => quaternion_rotate (qexp (qdiv (quaternion_of_vector fun r =>
          Real.arccos (dot3 g vertical_axis / norm3 g)
            * (cross3 g vertical_axis r / norm3 (cross3 g vertical_axis))) 2))
        (fun s => acc s i) r,
      fun r i => quaternion_rotate (qexp (qdiv (quaternion_of_vector fun r =>
          Real.arccos (dot3 g vertical_axis / norm3 g)
            * (cross3 g vertical_axis r / norm3 (cross3 g vertical_axis))) 2))
        (fun s => omega s i) r) = _
  rw [hrotator]

theorem foldl_correct_z_noop (L : List (ℕ × ℕ))
    (state : (Fin 3 → ℕ → ℝ) × (Fin 3 → ℕ → ℝ))
    (h : ∀ st ∈ L, Real.arccos (dot3 (slice_mean state.1 st.1 st.2) vertical_axis
        / norm3 (slice_mean state.1 st.1 st.2)) ≤ 10 * (Real.pi / 180)) :
    L.foldl correct_z_step state = state := by
  induction L with
  | nil => rfl
  | cons st L ih =>
    rw [List.foldl_cons]
    have hstep : correct_z_step state st = state := by
      unfold correct_z_step
      rw [if_neg]
      exact not_lt.mpr (h st (List.mem_cons_self _ _))
    rw [hstep]
    exact ih fun s hs => h s (List.mem_cons_of_mem _ hs)

/-- C4 (amended): correct_z_orientation estimates the gravity vector as the
mean acceleration over the concatenation of ALL stationary intervals, not
over the first interval only; provided the rotation axis is nondegenerate
and no later stationary interval triggers the 10-degree re-alignment, it
applies to every sample of both the acceleration and the angular-velocity
series the single unit quaternion whose rotation axis is the normalised
cross product of that gravity estimate with the vertical axis and whose
angle is the arccosine of their normalised dot product. -/
theorem correct_z_orientation_concat_gravity_C4 (acc omega : Fin 3 → ℕ → ℝ)
    (sts : List (ℕ × ℕ))
    (hu : norm3 (cross3 (concatenated_mean acc sts) vertical_axis) ≠ 0)
    (hnr : ∀ st ∈ sts.tail,
      Real.arccos (dot3 (slice_mean (align_from_g_vector acc omega
            (concatenated_mean acc sts)).1 st.1 st.2) vertical_axis
          / norm3 (slice_mean (align_from_g_vector acc omega
            (concatenated_mean acc sts)).1 st.1 st.2)) ≤ 10 * (Real.pi / 180)) :
    ∀ r i,
      (correct_z_orientation acc omega sts).1 r i
        = quaternion_rotate (rotation_from_gravity (concatenated_mean acc sts))
            (fun s => acc s i) r ∧
      (correct_z_orientation acc omega sts).2 r i
        = quaternion_rotate (rotation_from_gravity (concatenated_mean acc sts))
            (fun s => omega s i) r := by
  intro r i
  have hcz : correct_z_orientation acc omega sts
      = align_from_g_vector acc omega (concatenated_mean acc sts) := by
    show sts.tail.foldl correct_z_step
        (align_from_g_vector acc omega (concatenated_mean acc sts)) = _
    exact foldl_correct_z_noop _ _ hnr
  rw [hcz, align_from_g_vector_rotator _ _ _ hu]
  exact ⟨rfl, rfl⟩

/-- Witness for C4 on the concrete input of constant acceleration (1, 0, 0),
zero angular velocity and the single stationary interval (0, 2). -/
theorem correct_z_orientation_concat_gravity_C4_witness :
    (correct_z_orientation (fun r _ => if r = 0 then (1 : ℝ) else 0)
        (fun _ _ => 0) [(0, 2)]).1 2 0
      = quaternion_rotate (rotation_from_gravity
          (concatenated_mean (fun r _ => if r = 0 then (1 : ℝ) else 0) [(0, 2)]))
          (fun s => (fun r _ => if r = 0 then (1 : ℝ) else 0) s 0) 2 :=
  ((correct_z_orientation_concat_gravity_C4
      (fun r _ => if r = 0 then (1 : ℝ) else 0) (fun _ _ => 0) [(0, 2)]
      (by
        have hg : concatenated_mean (fun r _ => if r = 0 then (1 : ℝ) else 0) [(0, 2)]
            = fun r => if r = 0 then 1 else 0 := by
          funext r
          unfold concatenated_mean
          simp only [List.map_cons, List.map_nil, List.sum_cons, List.sum_nil]
          rw [show Finset.Ico 0 2 = ({0, 1} : Finset ℕ) from by decide,
            Finset.sum_pair (by norm_num : (0 : ℕ) ≠ 1)]
          by_cases h : r = 0 <;> simp [h] <;> norm_num
        rw [hg]
        unfold cross3 norm3 vertical_axis
        norm_num)
      (by simp)) 2 0).1

theorem correct_z_step_realign (state : (Fin 3 → ℕ → ℝ) × (Fin 3 → ℕ → ℝ)) (st : ℕ × ℕ)
    (h : 10 * (Real.pi / 180) < Real.arccos (dot3 (slice_mean state.1 st.1 st.2)
        vertical_axis / norm3 (slice_mean state.1 st.1 st.2))) :
    correct_z_step state st
      = align_from_g_vector state.1 state.2 (slice_mean state.1 st.1 st.2) := by
  show (if Real.arccos (dot3 (slice_mean state.1 st.1 st.2) vertical_axis
      / norm3 (slice_mean state.1 st.1 st.2)) > 10 * (Real.pi / 180) then
    align_from_g_vector state.1 state.2 (slice_mean state.1 st.1 st.2) else state) = _
  rw [if_pos h]

theorem sqrt_half_eq : Real.sqrt (1 / 2) = Real.sqrt 2 / 2 := by
  rw [show (1 / 2 : ℝ) = (Real.sqrt 2 / 2) ^ 2 by
    rw [div_pow, Real.sq_sqrt (by norm_num : (0 : ℝ) ≤ 2)]
    norm_num]
  exact Real.sqrt_sq (by positivity)

theorem arccos_sqrt2_div_two : Real.arccos (Real.sqrt 2 / 2) = Real.pi / 4 := by
  rw [← Real.cos_pi_div_four]
  exact Real.arccos_cos (by positivity) (by nlinarith [Real.pi_pos])

theorem half_div_sqrt2_half : (1 / 2 : ℝ) / (Real.sqrt 2 / 2) = Real.sqrt 2 / 2 := by
  have s2 : Real.sqrt 2 * Real.sqrt 2 = 2 := Real.mul_self_sqrt (by norm_num)
  rw [div_eq_iff (by positivity : (Real.sqrt 2 / 2 : ℝ) ≠ 0)]
  nlinarith [s2]

theorem rotation_from_gravity_eval (g : Fin 3 → ℝ) :
    rotation_from_gravity g
      = ⟨Real.cos (Real.arccos (dot3 g vertical_axis / norm3 g) / 2),
         Real.sin (Real.arccos (dot3 g vertical_axis / norm3 g) / 2)
           * (cross3 g vertical_axis 0 / norm3 (cross3 g vertical_axis)),
         Real.sin (Real.arccos (dot3 g vertical_axis / norm3 g) / 2)
           * (cross3 g vertical_axis 1 / norm3 (cross3 g vertical_axis)),
         Real.sin (Real.arccos (dot3 g vertical_axis / norm3 g) / 2)
           * (cross3 g vertical_axis 2 / norm3 (cross3 g vertical_axis))⟩ := rfl

theorem rotation_from_gravity_first_C4 :
    rotation_from_gravity ![(1 : ℝ), 0, 0]
      = ⟨Real.sqrt 2 / 2, 0, -(Real.sqrt 2 / 2), 0⟩ := by
  have hdot : dot3 ![(1 : ℝ), 0, 0] vertical_axis = 0 := by
    norm_num [dot3, vertical_axis]
  have hcr0 : cross3 ![(1 : ℝ), 0, 0] vertical_axis 0 = 0 := by
    norm_num [cross3, vertical_axis]
  have hcr1 : cross3 ![(1 : ℝ), 0, 0] vertical_axis 1 = -1 := by
    norm_num [cross3, vertical_axis]
  have hcr2 : cross3 ![(1 : ℝ), 0, 0] vertical_axis 2 = 0 := by
    norm_num [cross3, vertical_axis]
  have hncr : norm3 (cross3 ![(1 : ℝ), 0, 0] vertical_axis) = 1 := by
    unfold norm3
    rw [hcr0, hcr1, hcr2]
    norm_num
  rw [rotation_from_gravity_eval, hdot, hcr0, hcr1, hcr2, hncr, zero_div,
    Real.arccos_zero, show Real.pi / 2 / 2 = Real.pi / 4 by ring,
    Real.cos_pi_div_four, Real.sin_pi_div_four]
  simp [Quat.mk.injEq]

theorem rotation_from_gravity_concat_C4 :
    rotation_from_gravity ![(1 / 2 : ℝ), 1 / 2, 0]
      = ⟨Real.sqrt 2 / 2, 1 / 2, -(1 / 2), 0⟩ := by
  have s2 : Real.sqrt 2 * Real.sqrt 2 = 2 := Real.mul_self_sqrt (by norm_num)
  have hdot : dot3 ![(1 / 2 : ℝ), 1 / 2, 0] vertical_axis = 0 := by
    norm_num [dot3, vertical_axis]
  have hcr0 : cross3 ![(1 / 2 : ℝ), 1 / 2, 0] vertical_axis 0 = 1 / 2 := by
    norm_num [cross3, vertical_axis]
  have hcr1 : cross3 ![(1 / 2 : ℝ), 1 / 2, 0] vertical_axis 1 = -(1 / 2) := by
    norm_num [cross3, vertical_axis]
  have hcr2 : cross3 ![(1 / 2 : ℝ), 1 / 2, 0] vertical_axis 2 = 0 := by
    norm_num [cross3, vertical_axis]
  have hncr : norm3 (cross3 ![(1 / 2 : ℝ), 1 / 2, 0] vertical_axis) = Real.sqrt 2 / 2 := by
    unfold norm3
    rw [hcr0, hcr1, hcr2, show ((1 / 2 : ℝ)) ^ 2 + (-(1 / 2)) ^ 2 + 0 ^ 2 = 1 / 2 by norm_num]
    exact sqrt_half_eq
  have hx : Real.sqrt 2 / 2 * (1 / 2 / (Real.sqrt 2 / 2)) = 1 / 2 := by
    rw [half_div_sqrt2_half]
    nlinarith [s2]
  have hy : Real.sqrt 2 / 2 * (-(1 / 2) / (Real.sqrt 2 / 2)) = -(1 / 2) := by
    rw [show (-(1 / 2) : ℝ) / (Real.sqrt 2 / 2) = -(1 / 2 / (Real.sqrt 2 / 2)) by ring,
      half_div_sqrt2_half]
    nlinarith [s2]
  rw [rotation_from_gravity_eval, hdot, hcr0, hcr1, hcr2, hncr, zero_div,
    Real.arccos_zero, show Real.pi / 2 / 2 = Real.pi / 4 by ring,
    Real.cos_pi_div_four, Real.sin_pi_div_four, hx, hy]
  simp [Quat.mk.injEq]

theorem rotation_from_gravity_second_C4 :
    rotation_from_gravity ![(-(1 / 2) : ℝ), 1 / 2, Real.sqrt 2 / 2]
      = ⟨Real.cos (Real.pi / 8), Real.sin (Real.pi / 8) * (Real.sqrt 2 / 2),
         Real.sin (Real.pi / 8) * (Real.sqrt 2 / 2), 0⟩ := by
  have s2 : Real.sqrt 2 * Real.sqrt 2 = 2 := Real.mul_self_sqrt (by norm_num)
  have hdot : dot3 ![(-(1 / 2) : ℝ), 1 / 2, Real.sqrt 2 / 2] vertical_axis
      = Real.sqrt 2 / 2 := by
    norm_num [dot3, vertical_axis]
  have hcr0 : cross3 ![(-(1 / 2) : ℝ), 1 / 2, Real.sqrt 2 / 2] vertical_axis 0 = 1 / 2 := by
    norm_num [cross3, vertical_axis]
  have hcr1 : cross3 ![(-(1 / 2) : ℝ), 1 / 2, Real.sqrt 2 / 2] vertical_axis 1 = 1 / 2 := by
    norm_num [cross3, vertical_axis]
  have hcr2 : cross3 ![(-(1 / 2) : ℝ), 1 / 2, Real.sqrt 2 / 2] vertical_axis 2 = 0 := by
    norm_num [cross3, vertical_axis]
  have hncr : norm3 (cross3 ![(-(1 / 2) : ℝ), 1 / 2, Real.sqrt 2 / 2] vertical_axis)
      = Real.sqrt 2 / 2 := by
    unfold norm3
    rw [hcr0, hcr1, hcr2, show ((1 / 2 : ℝ)) ^ 2 + (1 / 2) ^ 2 + 0 ^ 2 = 1 / 2 by norm_num]
    exact sqrt_half_eq
  have hng : norm3 ![(-(1 / 2) : ℝ), 1 / 2, Real.sqrt 2 / 2] = 1 := by
    unfold norm3
    rw [show ((![(-(1 / 2) : ℝ), 1 / 2, Real.sqrt 2 / 2]) 0) ^ 2
          + ((![(-(1 / 2) : ℝ), 1 / 2, Real.sqrt 2 / 2]) 1) ^ 2
          + ((![(-(1 / 2) : ℝ), 1 / 2, Real.sqrt 2 / 2]) 2) ^ 2 = 1 by
      norm_num
      nlinarith [s2]]
    exact Real.sqrt_one
  have hx : Real.sin (Real.pi / 8) * (1 / 2 / (Real.sqrt 2 / 2))
      = Real.sin (Real.pi / 8) * (Real.sqrt 2 / 2) := by
    rw [half_div_sqrt2_half]
  rw [rotation_from_gravity_eval, hdot, hcr0, hcr1, hcr2, hncr, hng, div_one,
    arccos_sqrt2_div_two, show Real.pi / 4 / 2 = Real.pi / 8 by ring, hx]
  simp [Quat.mk.injEq]

theorem norm_cross_first_C4v : norm3 (cross3 ![(1 : ℝ), 0, 0] vertical_axis) = 1 := by
  unfold norm3
  norm_num [cross3, vertical_axis]

theorem norm_cross_concat_C4v :
    norm3 (cross3 ![(1 / 2 : ℝ), 1 / 2, 0] vertical_axis) = Real.sqrt 2 / 2 := by
  unfold norm3
  rw [show (cross3 ![(1 / 2 : ℝ), 1 / 2, 0] vertical_axis 0) ^ 2
        + (cross3 ![(1 / 2 : ℝ), 1 / 2, 0] vertical_axis 1) ^ 2
        + (cross3 ![(1 / 2 : ℝ), 1 / 2, 0] vertical_axis 2) ^ 2 = 1 / 2 by
    norm_num [cross3, vertical_axis]]
  exact sqrt_half_eq

theorem norm_cross_second_C4v :
    norm3 (cross3 ![(-(1 / 2) : ℝ), 1 / 2, Real.sqrt 2 / 2] vertical_axis)
      = Real.sqrt 2 / 2 := by
  unfold norm3
  rw [show (cross3 ![(-(1 / 2) : ℝ), 1 / 2, Real.sqrt 2 / 2] vertical_axis 0) ^ 2
        + (cross3 ![(-(1 / 2) : ℝ), 1 / 2, Real.sqrt 2 / 2] vertical_axis 1) ^ 2
        + (cross3 ![(-(1 / 2) : ℝ), 1 / 2, Real.sqrt 2 / 2] vertical_axis 2) ^ 2 = 1 / 2 by
    norm_num [cross3, vertical_axis]]
  exact sqrt_half_eq

theorem norm_vec_second_C4v : norm3 ![(-(1 / 2) : ℝ), 1 / 2, Real.sqrt 2 / 2] = 1 := by
  have s2 : Real.sqrt 2 * Real.sqrt 2 = 2 := Real.mul_self_sqrt (by norm_num)
  unfold norm3
  rw [show ((![(-(1 / 2) : ℝ), 1 / 2, Real.sqrt 2 / 2]) 0) ^ 2
        + ((![(-(1 / 2) : ℝ), 1 / 2, Real.sqrt 2 / 2]) 1) ^ 2
        + ((![(-(1 / 2) : ℝ), 1 / 2, Real.sqrt 2 / 2]) 2) ^ 2 = 1 by
    norm_num
    nlinarith [s2]]
  exact Real.sqrt_one

theorem dot_second_C4v :
    dot3 ![(-(1 / 2) : ℝ), 1 / 2, Real.sqrt 2 / 2] vertical_axis = Real.sqrt 2 / 2 := by
  norm_num [dot3, vertical_axis]

set_option maxHeartbeats 1000000 in
/-- C4 (counterexample to the claim as stated): two stationary intervals with
differing mean accelerations.  The code estimates gravity from ALL intervals
concatenated and later re-aligns, so sample 0 ends with third (z) component
0; the rotation the claim describes — built from the FIRST interval's
gravity estimate only and applied to every sample — would give sample 0 the
third component 1.  The gravity estimate is therefore not the mean over the
first stationary interval only. -/
theorem correct_z_orientation_not_first_interval_C4_cex :
    (correct_z_orientation
        (fun r i => if i ≤ 1 then ![(1 : ℝ), 0, 0] r else ![(0 : ℝ), 1, 0] r)
        (fun _ _ => 0) [(0, 2), (2, 4)]).1 2 0 = 0 ∧
    (correct_z_claimed
        (fun r i => if i ≤ 1 then ![(1 : ℝ), 0, 0] r else ![(0 : ℝ), 1, 0] r)
        (fun _ _ => 0) [(0, 2), (2, 4)]).1 2 0 = 1 := by
  set acc : Fin 3 → ℕ → ℝ :=
    fun r i => if i ≤ 1 then ![(1 : ℝ), 0, 0] r else ![(0 : ℝ), 1, 0] r with hacc
  set omg : Fin 3 → ℕ → ℝ := fun _ _ => 0 with homg
  have s2 : Real.sqrt 2 * Real.sqrt 2 = 2 := Real.mul_self_sqrt (by norm_num)
  have hcol01 : ∀ i, i ≤ 1 → (fun s => acc s i) = ![(1 : ℝ), 0, 0] := by
    intro i hi
    funext s
    simp [hacc, hi]
  have hcol23 : ∀ i, 1 < i → (fun s => acc s i) = ![(0 : ℝ), 1, 0] := by
    intro i hi
    funext s
    simp [hacc, Nat.not_le.mpr hi]
  have hI02 : Finset.Ico 0 2 = ({0, 1} : Finset ℕ) := by decide
  have hI24 : Finset.Ico 2 4 = ({2, 3} : Finset ℕ) := by decide
  have hm1 : slice_mean acc 0 2 = ![(1 : ℝ), 0, 0] := by
    funext r
    unfold slice_mean
    rw [hI02, Finset.sum_pair (by norm_num : (0 : ℕ) ≠ 1)]
    fin_cases r <;> norm_num [hacc]
  have hg : concatenated_mean acc [(0, 2), (2, 4)] = ![(1 / 2 : ℝ), 1 / 2, 0] := by
    funext r
    unfold concatenated_mean
    simp only [List.map_cons, List.map_nil, List.sum_cons, List.sum_nil]
    rw [hI02, hI24, Finset.sum_pair (by norm_num : (0 : ℕ) ≠ 1),
      Finset.sum_pair (by norm_num : (2 : ℕ) ≠ 3)]
    fin_cases r <;> norm_num [hacc]
  have hrot1_col0 : quaternion_rotate ⟨Real.sqrt 2 / 2, 1 / 2, -(1 / 2), 0⟩ ![(1 : ℝ), 0, 0]
      = ![(1 / 2 : ℝ), -(1 / 2), Real.sqrt 2 / 2] := by
    funext r
    rw [quaternion_rotate_components]
    fin_cases r <;> norm_num <;> nlinarith [s2]
  have hrot1_col2 : quaternion_rotate ⟨Real.sqrt 2 / 2, 1 / 2, -(1 / 2), 0⟩ ![(0 : ℝ), 1, 0]
      = ![(-(1 / 2) : ℝ), 1 / 2, Real.sqrt 2 / 2] := by
    funext r
    rw [quaternion_rotate_components]
    fin_cases r <;> norm_num <;> nlinarith [s2]
  have halign1 : align_from_g_vector acc omg (concatenated_mean acc [(0, 2), (2, 4)])
      = (fun r i => quaternion_rotate ⟨Real.sqrt 2 / 2, 1 / 2, -(1 / 2), 0⟩
           (fun s => acc s i) r,
         fun r i => quaternion_rotate ⟨Real.sqrt 2 / 2, 1 / 2, -(1 / 2), 0⟩
           (fun s => omg s i) r) := by
    rw [hg, align_from_g_vector_rotator _ _ _ (by rw [norm_cross_concat_C4v]; positivity),
      rotation_from_gravity_concat_C4]
  have hsm2 : slice_mean (align_from_g_vector acc omg
        (concatenated_mean acc [(0, 2), (2, 4)])).1 2 4
      = ![(-(1 / 2) : ℝ), 1 / 2, Real.sqrt 2 / 2] := by
    rw [halign1]
    funext r
    unfold slice_mean
    rw [hI24, Finset.sum_pair (by norm_num : (2 : ℕ) ≠ 3)]
    show (quaternion_rotate _ (fun s => acc s 2) r
        + quaternion_rotate _ (fun s => acc s 3) r) / ((4 - 2 : ℕ) : ℝ) = _
    rw [hcol23 2 (by norm_num), hcol23 3 (by norm_num), hrot1_col2]
    fin_cases r <;> norm_num
  have hcond : 10 * (Real.pi / 180)
      < Real.arccos (dot3 (slice_mean (align_from_g_vector acc omg
          (concatenated_mean acc [(0, 2), (2, 4)])).1 2 4) vertical_axis
        / norm3 (slice_mean (align_from_g_vector acc omg
          (concatenated_mean acc [(0, 2), (2, 4)])).1 2 4)) := by
    rw [hsm2, dot_second_C4v, norm_vec_second_C4v, div_one, arccos_sqrt2_div_two]
    nlinarith [Real.pi_pos]
  have hfold : correct_z_orientation acc omg [(0, 2), (2, 4)]
      = correct_z_step (align_from_g_vector acc omg
          (concatenated_mean acc [(0, 2), (2, 4)])) (2, 4) := by
    simp only [correct_z_orientation, List.tail_cons]
    rw [List.foldl_cons, List.foldl_nil]
  have hclaim : correct_z_claimed acc omg [(0, 2), (2, 4)]
      = align_from_g_vector acc omg (slice_mean acc 0 2) := by
    simp only [correct_z_claimed, List.headD_cons]
  constructor
  · rw [hfold]
    rw [correct_z_step_realign (align_from_g_vector acc omg
        (concatenated_mean acc [(0, 2), (2, 4)])) (2, 4) hcond, hsm2,
      align_from_g_vector_rotator _ _ _ (by rw [norm_cross_second_C4v]; positivity),
      rotation_from_gravity_second_C4]
    show quaternion_rotate
        ⟨Real.cos (Real.pi / 8), Real.sin (Real.pi / 8) * (Real.sqrt 2 / 2),
         Real.sin (Real.pi / 8) * (Real.sqrt 2 / 2), 0⟩
        (fun s => (align_from_g_vector acc omg
          (concatenated_mean acc [(0, 2), (2, 4)])).1 s 0) 2 = 0
    have hstate_col0 : (fun s => (align_from_g_vector acc omg
         (concatenated_mean acc [(0, 2), (2, 4)])).1 s 0)
        = ![(1 / 2 : ℝ), -(1 / 2), Real.sqrt 2 / 2] := by
      rw [halign1]
      show (fun s => quaternion_rotate ⟨Real.sqrt 2 / 2, 1 / 2, -(1 / 2), 0⟩
        (fun t => acc t 0) s) = _
      rw [hcol01 0 (by norm_num), hrot1_col0]
    rw [hstate_col0, quaternion_rotate_components]
    show 2 * (Real.sin (Real.pi / 8) * (Real.sqrt 2 / 2) * 0
          - Real.cos (Real.pi / 8) * (Real.sin (Real.pi / 8) * (Real.sqrt 2 / 2)))
          * (1 / 2)
        + 2 * (Real.sin (Real.pi / 8) * (Real.sqrt 2 / 2) * 0
          + Real.cos (Real.pi / 8) * (Real.sin (Real.pi / 8) * (Real.sqrt 2 / 2)))
          * (-(1 / 2))
        + (Real.cos (Real.pi / 8) ^ 2 - (Real.sin (Real.pi / 8) * (Real.sqrt 2 / 2)) ^ 2
          - (Real.sin (Real.pi / 8) * (Real.sqrt 2 / 2)) ^ 2 + 0 ^ 2)
          * (Real.sqrt 2 / 2) = 0
    have h2CS : 2 * Real.sin (Real.pi / 8) * Real.cos (Real.pi / 8) = Real.sqrt 2 / 2 := by
      rw [← Real.sin_two_mul, show 2 * (Real.pi / 8) = Real.pi / 4 by ring,
        Real.sin_pi_div_four]
    have hC2S2 : Real.cos (Real.pi / 8) ^ 2 - Real.sin (Real.pi / 8) ^ 2
        = Real.sqrt 2 / 2 := by
      have hct : Real.cos (Real.pi / 4) = 2 * Real.cos (Real.pi / 8) ^ 2 - 1 := by
        rw [show Real.pi / 4 = 2 * (Real.pi / 8) by ring, Real.cos_two_mul]
      have hsc : Real.sin (Real.pi / 8) ^ 2 + Real.cos (Real.pi / 8) ^ 2 = 1 :=
        Real.sin_sq_add_cos_sq _
      rw [Real.cos_pi_div_four] at hct
      nlinarith [hct, hsc]
    linear_combination (-(Real.sqrt 2) / 2) * h2CS + Real.sqrt 2 / 2 * hC2S2
      + (-(Real.sin (Real.pi / 8) ^ 2 * Real.sqrt 2) / 4) * s2
  · rw [hclaim]
    rw [hm1, align_from_g_vector_rotator _ _ _ (by rw [norm_cross_first_C4v]; norm_num),
      rotation_from_gravity_first_C4]
    show quaternion_rotate ⟨Real.sqrt 2 / 2, 0, -(Real.sqrt 2 / 2), 0⟩
        (fun s => acc s 0) 2 = 1
    rw [hcol01 0 (by norm_num), quaternion_rotate_components]
    show 2 * (0 * 0 - Real.sqrt 2 / 2 * -(Real.sqrt 2 / 2)) * 1
        + 2 * (-(Real.sqrt 2 / 2) * 0 + Real.sqrt 2 / 2 * 0) * 0
        + ((Real.sqrt 2 / 2) ^ 2 - 0 ^ 2 - (-(Real.sqrt 2 / 2)) ^ 2 + 0 ^ 2) * 0 = 1
    linear_combination s2 / 2

/-! ### correct_xy_orientation (clean_data_utils.py): bad-alignment counts -/

theorem foldl_filter_step_congr (c c' : ℕ → Bool) (l : List ℕ)
    (h : ∀ i ∈ l, c i = c' i) :
    ∀ s, l.foldl (filter_contiguous_step c) s = l.foldl (filter_contiguous_step c') s := by
  induction l with
  | nil => intro s; rfl
  | cons a t ih =>
    intro s
    simp only [List.foldl_cons]
    rw [show filter_contiguous_step c s a = filter_contiguous_step c' s a by
      unfold filter_contiguous_step; rw [h a (List.mem_cons_self a t)]]
    exact ih (fun i hi => h i (List.mem_cons_of_mem a hi)) _

theorem filter_contiguous_scan_congr (n : ℕ) (c c' : ℕ → Bool)
    (h : ∀ i < n, c i = c' i) :
    filter_contiguous_scan n c = filter_contiguous_scan n c' := by
  unfold filter_contiguous_scan
  rw [foldl_filter_step_congr c c' (List.range n)
    (fun i hi => h i (List.mem_range.mp hi)) _]

theorem slice_mean_const (a : Fin 3 → ℕ → ℝ) (s e : ℕ) (h : s < e) (c : Fin 3 → ℝ)
    (hc : ∀ r, ∀ i, s ≤ i → i < e → a r i = c r) : slice_mean a s e = c := by
  funext r
  unfold slice_mean
  rw [Finset.sum_congr rfl
    (fun i hi => hc r i (Finset.mem_Ico.mp hi).1 (Finset.mem_Ico.mp hi).2)]
  rw [Finset.sum_const, Nat.card_Ico, nsmul_eq_mul]
  exact mul_div_cancel_left₀ _ (Nat.cast_ne_zero.mpr (Nat.sub_ne_zero_of_lt h))

theorem rotatexy_rotAcc (n : ℕ) (a w : Fin 3 → ℕ → ℝ) (s e : ℕ) (h : 0 < e - s) :
    rotatexy n a w (some (s, e))
      = (get_xy_bad_align_count n
           (rotAcc (Real.cos (xyAngle (slice_mean a s e)))
             (Real.sin (xyAngle (slice_mean a s e))) a) w,
         rotAcc (Real.cos (xyAngle (slice_mean a s e)))
           (Real.sin (xyAngle (slice_mean a s e))) a) := by
  simp only [rotatexy]
  rw [if_pos h]
  rfl

theorem rotatexy_fst (n : ℕ) (a w : Fin 3 → ℕ → ℝ) (c : Option (ℕ × ℕ)) :
    get_xy_bad_align_count n (rotatexy n a w c).2 w = (rotatexy n a w c).1 := by
  match c with
  | none => rfl
  | some (s, e) =>
    by_cases h : 0 < e - s
    · rw [rotatexy_rotAcc n a w s e h]
    · have hne : rotatexy n a w (some (s, e)) = (get_xy_bad_align_count n a w, a) := by
        simp only [rotatexy]
        rw [if_neg h]
      rw [hne]

theorem correct_xy_orientation_eq (n : ℕ) (a w : Fin 3 → ℕ → ℝ) :
    correct_xy_orientation n a w
      = (rotatexy n a w
          ([(get_bad_alignment_vectors n a w).2.1,
            (get_bad_alignment_vectors n a w).2.2.1,
            (get_bad_alignment_vectors n a w).2.2.2].foldl
            (fun b c => if (rotatexy n a w c).1 < (rotatexy n a w b).1 then c else b)
            (get_bad_alignment_vectors n a w).1)).2 := rfl

theorem foldl_min_key_le (key : Option (ℕ × ℕ) → ℕ) (l : List (Option (ℕ × ℕ)))
    (b c : Option (ℕ × ℕ)) (hc : c = b ∨ c ∈ l) :
    key (l.foldl (fun x y => if key y < key x then y else x) b) ≤ key c := by
  induction l generalizing b c with
  | nil =>
    simp only [List.foldl_nil]
    rcases hc with h | h
    · rw [h]
    · exact absurd h (List.not_mem_nil c)
  | cons a t ih =>
    have hstep : ∀ x y : Option (ℕ × ℕ),
        key (if key y < key x then y else x) ≤ key x ∧
          key (if key y < key x then y else x) ≤ key y := by
      intro x y
      by_cases h : key y < key x
      · rw [if_pos h]; exact ⟨Nat.le_of_lt h, Nat.le_refl _⟩
      · rw [if_neg h]; exact ⟨Nat.le_refl _, Nat.le_of_not_lt h⟩
    simp only [List.foldl_cons]
    rcases hc with h | h
    · rw [h]
      exact Nat.le_trans (ih _ _ (Or.inl rfl)) (hstep b a).1
    · rcases List.mem_cons.mp h with h | h
      · rw [h]
        exact Nat.le_trans (ih _ _ (Or.inl rfl)) (hstep b a).2
      · exact ih _ _ (Or.inr h)

theorem sqrt2_gt_141 : (1.41 : ℝ) < Real.sqrt 2 := by
  nlinarith [Real.sq_sqrt (by norm_num : (0:ℝ) ≤ 2), Real.sqrt_nonneg 2]

theorem sqrt2_lt_142 : Real.sqrt 2 < 1.42 := by
  nlinarith [Real.sq_sqrt (by norm_num : (0:ℝ) ≤ 2), Real.sqrt_nonneg 2]

theorem rotAcc_val (co si : ℝ) (a : Fin 3 → ℕ → ℝ) (i : ℕ) (x y : ℝ)
    (hx : a 0 i = x) (hy : a 1 i = y) :
    rotAcc co si a 0 i = co * x - si * y ∧ rotAcc co si a 1 i = si * x + co * y := by
  constructor
  · show co * a 0 i - si * a 1 i = _
    rw [hx, hy]
  · show si * a 0 i + co * a 1 i = _
    rw [hx, hy]

theorem cexAcc_rA (i : ℕ) (h1 : i ≤ 101) :
    cexAcc 0 i = 0.3 ∧ cexAcc 1 i = 0.3 := by
  constructor <;> simp [cexAcc, h1]

theorem cexAcc_rB (i : ℕ) (h1 : ¬ i ≤ 101) (h2 : i ≤ 203) :
    cexAcc 0 i = -0.3 ∧ cexAcc 1 i = 0.3 := by
  constructor <;> simp [cexAcc, h1, h2]

theorem cexAcc_rC (i : ℕ) (h1 : ¬ i ≤ 101) (h2 : ¬ i ≤ 203) (h3 : i ≤ 305) :
    cexAcc 0 i = 0.3 ∧ cexAcc 1 i = -0.3 := by
  constructor <;> simp [cexAcc, h1, h2, h3]

theorem cexAcc_rD (i : ℕ) (h1 : ¬ i ≤ 101) (h2 : ¬ i ≤ 203) (h3 : ¬ i ≤ 305)
    (h4 : i ≤ 705) : cexAcc 0 i = 5 ∧ cexAcc 1 i = 0.1 := by
  constructor <;> simp [cexAcc, h1, h2, h3, h4]

theorem cexAcc_rE (i : ℕ) (h1 : ¬ i ≤ 101) (h2 : ¬ i ≤ 203) (h3 : ¬ i ≤ 305)
    (h4 : ¬ i ≤ 705) : cexAcc 0 i = -0.3 ∧ cexAcc 1 i = -0.3 := by
  constructor <;> simp [cexAcc, h1, h2, h3, h4]

theorem cex_cond1 : ∀ i < 708,
    (ax_over_threshold cexAcc i && ay_over_threshold cexAcc i
      && gz_below_threshold cexGyro i) = decide (i ≤ 101) := by
  intro i _
  unfold ax_over_threshold ay_over_threshold gz_below_threshold
  rw [← Bool.decide_and, ← Bool.decide_and, decide_eq_decide]
  simp only [axy_threshold, max_axy_threshold, g_z_threshold]
  rw [show cexGyro 2 i = 0 from rfl, abs_zero]
  by_cases h1 : i ≤ 101
  · obtain ⟨e0, e1⟩ := cexAcc_rA i h1
    rw [e0, e1]
    refine iff_of_true ⟨⟨⟨?_, ?_⟩, ?_, ?_⟩, ?_⟩ h1 <;> norm_num
  · by_cases h2 : i ≤ 203
    · obtain ⟨e0, e1⟩ := cexAcc_rB i h1 h2
      rw [e0, e1]
      refine iff_of_false (fun hc => ?_) (by omega)
      obtain ⟨⟨⟨q1, q2⟩, q3, q4⟩, q5⟩ := hc
      linarith
    · by_cases h3 : i ≤ 305
      · obtain ⟨e0, e1⟩ := cexAcc_rC i h1 h2 h3
        rw [e0, e1]
        refine iff_of_false (fun hc => ?_) (by omega)
        obtain ⟨⟨⟨q1, q2⟩, q3, q4⟩, q5⟩ := hc
        linarith
      · by_cases h4 : i ≤ 705
        · obtain ⟨e0, e1⟩ := cexAcc_rD i h1 h2 h3 h4
          rw [e0, e1]
          refine iff_of_false (fun hc => ?_) (by omega)
          obtain ⟨⟨⟨q1, q2⟩, q3, q4⟩, q5⟩ := hc
          linarith
        · obtain ⟨e0, e1⟩ := cexAcc_rE i h1 h2 h3 h4
          rw [e0, e1]
          refine iff_of_false (fun hc => ?_) (by omega)
          obtain ⟨⟨⟨q1, q2⟩, q3, q4⟩, q5⟩ := hc
          linarith

theorem cex_cond2 : ∀ i < 708,
    (ax_below_threshold cexAcc i && ay_over_threshold cexAcc i
      && gz_below_threshold cexGyro i) = decide (102 ≤ i ∧ i ≤ 203) := by
  intro i _
  unfold ax_below_threshold ay_over_threshold gz_below_threshold
  rw [← Bool.decide_and, ← Bool.decide_and, decide_eq_decide]
  simp only [axy_threshold, max_axy_threshold, g_z_threshold]
  rw [show cexGyro 2 i = 0 from rfl, abs_zero]
  by_cases h1 : i ≤ 101
  · obtain ⟨e0, e1⟩ := cexAcc_rA i h1
    rw [e0, e1]
    refine iff_of_false (fun hc => ?_) (by omega)
    obtain ⟨⟨⟨q1, q2⟩, q3, q4⟩, q5⟩ := hc
    linarith
  · by_cases h2 : i ≤ 203
    · obtain ⟨e0, e1⟩ := cexAcc_rB i h1 h2
      rw [e0, e1]
      refine iff_of_true ⟨⟨⟨?_, ?_⟩, ?_, ?_⟩, ?_⟩ (by omega) <;> norm_num
    · by_cases h3 : i ≤ 305
      · obtain ⟨e0, e1⟩ := cexAcc_rC i h1 h2 h3
        rw [e0, e1]
        refine iff_of_false (fun hc => ?_) (by omega)
        obtain ⟨⟨⟨q1, q2⟩, q3, q4⟩, q5⟩ := hc
        linarith
      · by_cases h4 : i ≤ 705
        · obtain ⟨e0, e1⟩ := cexAcc_rD i h1 h2 h3 h4
          rw [e0, e1]
          refine iff_of_false (fun hc => ?_) (by omega)
          obtain ⟨⟨⟨q1, q2⟩, q3, q4⟩, q5⟩ := hc
          linarith
        · obtain ⟨e0, e1⟩ := cexAcc_rE i h1 h2 h3 h4
          rw [e0, e1]
          refine iff_of_false (fun hc => ?_) (by omega)
          obtain ⟨⟨⟨q1, q2⟩, q3, q4⟩, q5⟩ := hc
          linarith

theorem cex_cond3 : ∀ i < 708,
    (ax_over_threshold cexAcc i && ay_below_threshold cexAcc i
      && gz_below_threshold cexGyro i) = decide (204 ≤ i ∧ i ≤ 305) := by
  intro i _
  unfold ax_over_threshold ay_below_threshold gz_below_threshold
  rw [← Bool.decide_and, ← Bool.decide_and, decide_eq_decide]
  simp only [axy_threshold, max_axy_threshold, g_z_threshold]
  rw [show cexGyro 2 i = 0 from rfl, abs_zero]
  by_cases h1 : i ≤ 101
  · obtain ⟨e0, e1⟩ := cexAcc_rA i h1
    rw [e0, e1]
    refine iff_of_false (fun hc => ?_) (by omega)
    obtain ⟨⟨⟨q1, q2⟩, q3, q4⟩, q5⟩ := hc
    linarith
  · by_cases h2 : i ≤ 203
    · obtain ⟨e0, e1⟩ := cexAcc_rB i h1 h2
      rw [e0, e1]
      refine iff_of_false (fun hc => ?_) (by omega)
      obtain ⟨⟨⟨q1, q2⟩, q3, q4⟩, q5⟩ := hc
      linarith
    · by_cases h3 : i ≤ 305
      · obtain ⟨e0, e1⟩ := cexAcc_rC i h1 h2 h3
        rw [e0, e1]
        refine iff_of_true ⟨⟨⟨?_, ?_⟩, ?_, ?_⟩, ?_⟩ (by omega) <;> norm_num
      · by_cases h4 : i ≤ 705
        · obtain ⟨e0, e1⟩ := cexAcc_rD i h1 h2 h3 h4
          rw [e0, e1]
          refine iff_of_false (fun hc => ?_) (by omega)
          obtain ⟨⟨⟨q1, q2⟩, q3, q4⟩, q5⟩ := hc
          linarith
        · obtain ⟨e0, e1⟩ := cexAcc_rE i h1 h2 h3 h4
          rw [e0, e1]
          refine iff_of_false (fun hc => ?_) (by omega)
          obtain ⟨⟨⟨q1, q2⟩, q3, q4⟩, q5⟩ := hc
          linarith

theorem cex_cond4 : ∀ i < 708,
    (ax_below_threshold cexAcc i && ay_below_threshold cexAcc i
      && gz_below_threshold cexGyro i) = decide (706 ≤ i) := by
  intro i _
  unfold ax_below_threshold ay_below_threshold gz_below_threshold
  rw [← Bool.decide_and, ← Bool.decide_and, decide_eq_decide]
  simp only [axy_threshold, max_axy_threshold, g_z_threshold]
  rw [show cexGyro 2 i = 0 from rfl, abs_zero]
  by_cases h1 : i ≤ 101
  · obtain ⟨e0, e1⟩ := cexAcc_rA i h1
    rw [e0, e1]
    refine iff_of_false (fun hc => ?_) (by omega)
    obtain ⟨⟨⟨q1, q2⟩, q3, q4⟩, q5⟩ := hc
    linarith
  · by_cases h2 : i ≤ 203
    · obtain ⟨e0, e1⟩ := cexAcc_rB i h1 h2
      rw [e0, e1]
      refine iff_of_false (fun hc => ?_) (by omega)
      obtain ⟨⟨⟨q1, q2⟩, q3, q4⟩, q5⟩ := hc
      linarith
    · by_cases h3 : i ≤ 305
      · obtain ⟨e0, e1⟩ := cexAcc_rC i h1 h2 h3
        rw [e0, e1]
        refine iff_of_false (fun hc => ?_) (by omega)
        obtain ⟨⟨⟨q1, q2⟩, q3, q4⟩, q5⟩ := hc
        linarith
      · by_cases h4 : i ≤ 705
        · obtain ⟨e0, e1⟩ := cexAcc_rD i h1 h2 h3 h4
          rw [e0, e1]
          refine iff_of_false (fun hc => ?_) (by omega)
          obtain ⟨⟨⟨q1, q2⟩, q3, q4⟩, q5⟩ := hc
          linarith
        · obtain ⟨e0, e1⟩ := cexAcc_rE i h1 h2 h3 h4
          rw [e0, e1]
          refine iff_of_true ⟨⟨⟨?_, ?_⟩, ?_, ?_⟩, ?_⟩ (by omega) <;> norm_num

theorem cexP_cond1 : ∀ i < 708,
    (ax_over_threshold cexAccP i && ay_over_threshold cexAccP i
      && gz_below_threshold cexGyro i) = false := by
  intro i _
  unfold ax_over_threshold ay_over_threshold gz_below_threshold
  rw [← Bool.decide_and, ← Bool.decide_and, decide_eq_false_iff_not]
  simp only [cexAccP, axy_threshold, max_axy_threshold, g_z_threshold]
  rw [show cexGyro 2 i = 0 from rfl, abs_zero]
  intro hc
  obtain ⟨⟨⟨q1, q2⟩, q3, q4⟩, q5⟩ := hc
  by_cases h1 : i ≤ 101
  · obtain ⟨p0, p1⟩ := rotAcc_val (Real.sqrt 2 / 2) (-(Real.sqrt 2 / 2)) cexAcc i _ _
      (cexAcc_rA i h1).1 (cexAcc_rA i h1).2
    rw [p0] at q1 q2; rw [p1] at q3 q4
    linarith [sqrt2_gt_141, sqrt2_lt_142]
  · by_cases h2 : i ≤ 203
    · obtain ⟨p0, p1⟩ := rotAcc_val (Real.sqrt 2 / 2) (-(Real.sqrt 2 / 2)) cexAcc i _ _
        (cexAcc_rB i h1 h2).1 (cexAcc_rB i h1 h2).2
      rw [p0] at q1 q2; rw [p1] at q3 q4
      linarith [sqrt2_gt_141, sqrt2_lt_142]
    · by_cases h3 : i ≤ 305
      · obtain ⟨p0, p1⟩ := rotAcc_val (Real.sqrt 2 / 2) (-(Real.sqrt 2 / 2)) cexAcc i _ _
          (cexAcc_rC i h1 h2 h3).1 (cexAcc_rC i h1 h2 h3).2
        rw [p0] at q1 q2; rw [p1] at q3 q4
        linarith [sqrt2_gt_141, sqrt2_lt_142]
      · by_cases h4 : i ≤ 705
        · obtain ⟨p0, p1⟩ := rotAcc_val (Real.sqrt 2 / 2) (-(Real.sqrt 2 / 2)) cexAcc i _ _
            (cexAcc_rD i h1 h2 h3 h4).1 (cexAcc_rD i h1 h2 h3 h4).2
          rw [p0] at q1 q2; rw [p1] at q3 q4
          linarith [sqrt2_gt_141, sqrt2_lt_142]
        · obtain ⟨p0, p1⟩ := rotAcc_val (Real.sqrt 2 / 2) (-(Real.sqrt 2 / 2)) cexAcc i _ _
            (cexAcc_rE i h1 h2 h3 h4).1 (cexAcc_rE i h1 h2 h3 h4).2
          rw [p0] at q1 q2; rw [p1] at q3 q4
          linarith [sqrt2_gt_141, sqrt2_lt_142]

theorem cexP_cond2 : ∀ i < 708,
    (ax_below_threshold cexAccP i && ay_over_threshold cexAccP i
      && gz_below_threshold cexGyro i) = false := by
  intro i _
  unfold ax_below_threshold ay_over_threshold gz_below_threshold
  rw [← Bool.decide_and, ← Bool.decide_and, decide_eq_false_iff_not]
  simp only [cexAccP, axy_threshold, max_axy_threshold, g_z_threshold]
  rw [show cexGyro 2 i = 0 from rfl, abs_zero]
  intro hc
  obtain ⟨⟨⟨q1, q2⟩, q3, q4⟩, q5⟩ := hc
  by_cases h1 : i ≤ 101
  · obtain ⟨p0, p1⟩ := rotAcc_val (Real.sqrt 2 / 2) (-(Real.sqrt 2 / 2)) cexAcc i _ _
      (cexAcc_rA i h1).1 (cexAcc_rA i h1).2
    rw [p0] at q1 q2; rw [p1] at q3 q4
    linarith [sqrt2_gt_141, sqrt2_lt_142]
  · by_cases h2 : i ≤ 203
    · obtain ⟨p0, p1⟩ := rotAcc_val (Real.sqrt 2 / 2) (-(Real.sqrt 2 / 2)) cexAcc i _ _
        (cexAcc_rB i h1 h2).1 (cexAcc_rB i h1 h2).2
      rw [p0] at q1 q2; rw [p1] at q3 q4
      linarith [sqrt2_gt_141, sqrt2_lt_142]
    · by_cases h3 : i ≤ 305
      · obtain ⟨p0, p1⟩ := rotAcc_val (Real.sqrt 2 / 2) (-(Real.sqrt 2 / 2)) cexAcc i _ _
          (cexAcc_rC i h1 h2 h3).1 (cexAcc_rC i h1 h2 h3).2
        rw [p0] at q1 q2; rw [p1] at q3 q4
        linarith [sqrt2_gt_141, sqrt2_lt_142]
      · by_cases h4 : i ≤ 705
        · obtain ⟨p0, p1⟩ := rotAcc_val (Real.sqrt 2 / 2) (-(Real.sqrt 2 / 2)) cexAcc i _ _
            (cexAcc_rD i h1 h2 h3 h4).1 (cexAcc_rD i h1 h2 h3 h4).2
          rw [p0] at q1 q2; rw [p1] at q3 q4
          linarith [sqrt2_gt_141, sqrt2_lt_142]
        · obtain ⟨p0, p1⟩ := rotAcc_val (Real.sqrt 2 / 2) (-(Real.sqrt 2 / 2)) cexAcc i _ _
            (cexAcc_rE i h1 h2 h3 h4).1 (cexAcc_rE i h1 h2 h3 h4).2
          rw [p0] at q1 q2; rw [p1] at q3 q4
          linarith [sqrt2_gt_141, sqrt2_lt_142]

theorem cexP_cond3 : ∀ i < 708,
    (ax_over_threshold cexAccP i && ay_below_threshold cexAccP i
      && gz_below_threshold cexGyro i) = decide (306 ≤ i ∧ i ≤ 705) := by
  intro i _
  unfold ax_over_threshold ay_below_threshold gz_below_threshold
  rw [← Bool.decide_and, ← Bool.decide_and, decide_eq_decide]
  simp only [cexAccP, axy_threshold, max_axy_threshold, g_z_threshold]
  rw [show cexGyro 2 i = 0 from rfl, abs_zero]
  by_cases h1 : i ≤ 101
  · obtain ⟨p0, p1⟩ := rotAcc_val (Real.sqrt 2 / 2) (-(Real.sqrt 2 / 2)) cexAcc i _ _
      (cexAcc_rA i h1).1 (cexAcc_rA i h1).2
    rw [p0, p1]
    refine iff_of_false (fun hc => ?_) (by omega)
    obtain ⟨⟨⟨q1, q2⟩, q3, q4⟩, q5⟩ := hc
    linarith [sqrt2_gt_141, sqrt2_lt_142]
  · by_cases h2 : i ≤ 203
    · obtain ⟨p0, p1⟩ := rotAcc_val (Real.sqrt 2 / 2) (-(Real.sqrt 2 / 2)) cexAcc i _ _
        (cexAcc_rB i h1 h2).1 (cexAcc_rB i h1 h2).2
      rw [p0, p1]
      refine iff_of_false (fun hc => ?_) (by omega)
      obtain ⟨⟨⟨q1, q2⟩, q3, q4⟩, q5⟩ := hc
      linarith [sqrt2_gt_141, sqrt2_lt_142]
    · by_cases h3 : i ≤ 305
      · obtain ⟨p0, p1⟩ := rotAcc_val (Real.sqrt 2 / 2) (-(Real.sqrt 2 / 2)) cexAcc i _ _
          (cexAcc_rC i h1 h2 h3).1 (cexAcc_rC i h1 h2 h3).2
        rw [p0, p1]
        refine iff_of_false (fun hc => ?_) (by omega)
        obtain ⟨⟨⟨q1, q2⟩, q3, q4⟩, q5⟩ := hc
        linarith [sqrt2_gt_141, sqrt2_lt_142]
      · by_cases h4 : i ≤ 705
        · obtain ⟨p0, p1⟩ := rotAcc_val (Real.sqrt 2 / 2) (-(Real.sqrt 2 / 2)) cexAcc i _ _
            (cexAcc_rD i h1 h2 h3 h4).1 (cexAcc_rD i h1 h2 h3 h4).2
          rw [p0, p1]
          refine iff_of_true ⟨⟨⟨?_, ?_⟩, ?_, ?_⟩, ?_⟩ (by omega) <;>
            linarith [sqrt2_gt_141, sqrt2_lt_142]
        · obtain ⟨p0, p1⟩ := rotAcc_val (Real.sqrt 2 / 2) (-(Real.sqrt 2 / 2)) cexAcc i _ _
            (cexAcc_rE i h1 h2 h3 h4).1 (cexAcc_rE i h1 h2 h3 h4).2
          rw [p0, p1]
          refine iff_of_false (fun hc => ?_) (by omega)
          obtain ⟨⟨⟨q1, q2⟩, q3, q4⟩, q5⟩ := hc
          linarith [sqrt2_gt_141, sqrt2_lt_142]

theorem cexP_cond4 : ∀ i < 708,
    (ax_below_threshold cexAccP i && ay_below_threshold cexAccP i
      && gz_below_threshold cexGyro i) = false := by
  intro i _
  unfold ax_below_threshold ay_below_threshold gz_below_threshold
  rw [← Bool.decide_and, ← Bool.decide_and, decide_eq_false_iff_not]
  simp only [cexAccP, axy_threshold, max_axy_threshold, g_z_threshold]
  rw [show cexGyro 2 i = 0 from rfl, abs_zero]
  intro hc
  obtain ⟨⟨⟨q1, q2⟩, q3, q4⟩, q5⟩ := hc
  by_cases h1 : i ≤ 101
  · obtain ⟨p0, p1⟩ := rotAcc_val (Real.sqrt 2 / 2) (-(Real.sqrt 2 / 2)) cexAcc i _ _
      (cexAcc_rA i h1).1 (cexAcc_rA i h1).2
    rw [p0] at q1 q2; rw [p1] at q3 q4
    linarith [sqrt2_gt_141, sqrt2_lt_142]
  · by_cases h2 : i ≤ 203
    · obtain ⟨p0, p1⟩ := rotAcc_val (Real.sqrt 2 / 2) (-(Real.sqrt 2 / 2)) cexAcc i _ _
        (cexAcc_rB i h1 h2).1 (cexAcc_rB i h1 h2).2
      rw [p0] at q1 q2; rw [p1] at q3 q4
      linarith [sqrt2_gt_141, sqrt2_lt_142]
    · by_cases h3 : i ≤ 305
      · obtain ⟨p0, p1⟩ := rotAcc_val (Real.sqrt 2 / 2) (-(Real.sqrt 2 / 2)) cexAcc i _ _
          (cexAcc_rC i h1 h2 h3).1 (cexAcc_rC i h1 h2 h3).2
        rw [p0] at q1 q2; rw [p1] at q3 q4
        linarith [sqrt2_gt_141, sqrt2_lt_142]
      · by_cases h4 : i ≤ 705
        · obtain ⟨p0, p1⟩ := rotAcc_val (Real.sqrt 2 / 2) (-(Real.sqrt 2 / 2)) cexAcc i _ _
            (cexAcc_rD i h1 h2 h3 h4).1 (cexAcc_rD i h1 h2 h3 h4).2
          rw [p0] at q1 q2; rw [p1] at q3 q4
          linarith [sqrt2_gt_141, sqrt2_lt_142]
        · obtain ⟨p0, p1⟩ := rotAcc_val (Real.sqrt 2 / 2) (-(Real.sqrt 2 / 2)) cexAcc i _ _
            (cexAcc_rE i h1 h2 h3 h4).1 (cexAcc_rE i h1 h2 h3 h4).2
          rw [p0] at q1 q2; rw [p1] at q3 q4
          linarith [sqrt2_gt_141, sqrt2_lt_142]

theorem cexQ_cond1 : ∀ i < 708,
    (ax_over_threshold cexAccQ i && ay_over_threshold cexAccQ i
      && gz_below_threshold cexGyro i) = decide (306 ≤ i ∧ i ≤ 705) := by
  intro i _
  unfold ax_over_threshold ay_over_threshold gz_below_threshold
  rw [← Bool.decide_and, ← Bool.decide_and, decide_eq_decide]
  simp only [cexAccQ, axy_threshold, max_axy_threshold, g_z_threshold]
  rw [show cexGyro 2 i = 0 from rfl, abs_zero]
  by_cases h1 : i ≤ 101
  · obtain ⟨p0, p1⟩ := rotAcc_val (Real.sqrt 2 / 2) (Real.sqrt 2 / 2) cexAcc i _ _
      (cexAcc_rA i h1).1 (cexAcc_rA i h1).2
    rw [p0, p1]
    refine iff_of_false (fun hc => ?_) (by omega)
    obtain ⟨⟨⟨q1, q2⟩, q3, q4⟩, q5⟩ := hc
    linarith [sqrt2_gt_141, sqrt2_lt_142]
  · by_cases h2 : i ≤ 203
    · obtain ⟨p0, p1⟩ := rotAcc_val (Real.sqrt 2 / 2) (Real.sqrt 2 / 2) cexAcc i _ _
        (cexAcc_rB i h1 h2).1 (cexAcc_rB i h1 h2).2
      rw [p0, p1]
      refine iff_of_false (fun hc => ?_) (by omega)
      obtain ⟨⟨⟨q1, q2⟩, q3, q4⟩, q5⟩ := hc
      linarith [sqrt2_gt_141, sqrt2_lt_142]
    · by_cases h3 : i ≤ 305
      · obtain ⟨p0, p1⟩ := rotAcc_val (Real.sqrt 2 / 2) (Real.sqrt 2 / 2) cexAcc i _ _
          (cexAcc_rC i h1 h2 h3).1 (cexAcc_rC i h1 h2 h3).2
        rw [p0, p1]
        refine iff_of_false (fun hc => ?_) (by omega)
        obtain ⟨⟨⟨q1, q2⟩, q3, q4⟩, q5⟩ := hc
        linarith [sqrt2_gt_141, sqrt2_lt_142]
      · by_cases h4 : i ≤ 705
        · obtain ⟨p0, p1⟩ := rotAcc_val (Real.sqrt 2 / 2) (Real.sqrt 2 / 2) cexAcc i _ _
            (cexAcc_rD i h1 h2 h3 h4).1 (cexAcc_rD i h1 h2 h3 h4).2
          rw [p0, p1]
          refine iff_of_true ⟨⟨⟨?_, ?_⟩, ?_, ?_⟩, ?_⟩ (by omega) <;>
            linarith [sqrt2_gt_141, sqrt2_lt_142]
        · obtain ⟨p0, p1⟩ := rotAcc_val (Real.sqrt 2 / 2) (Real.sqrt 2 / 2) cexAcc i _ _
            (cexAcc_rE i h1 h2 h3 h4).1 (cexAcc_rE i h1 h2 h3 h4).2
          rw [p0, p1]
          refine iff_of_false (fun hc => ?_) (by omega)
          obtain ⟨⟨⟨q1, q2⟩, q3, q4⟩, q5⟩ := hc
          linarith [sqrt2_gt_141, sqrt2_lt_142]

set_option maxRecDepth 100000 in
theorem cex_pre_vectors :
    get_bad_alignment_vectors 708 cexAcc cexGyro
      = (some (0, 101), some (102, 203), some (204, 305), some (706, 707)) := by
  unfold get_bad_alignment_vectors
  rw [filter_contiguous_scan_congr 708 _ _ cex_cond1,
    filter_contiguous_scan_congr 708 _ _ cex_cond2,
    filter_contiguous_scan_congr 708 _ _ cex_cond3,
    filter_contiguous_scan_congr 708 _ _ cex_cond4]
  decide

set_option maxRecDepth 100000 in
theorem cex_P_vectors :
    get_bad_alignment_vectors 708 cexAccP cexGyro
      = (none, none, some (306, 705), none) := by
  unfold get_bad_alignment_vectors
  rw [filter_contiguous_scan_congr 708 _ _ cexP_cond1,
    filter_contiguous_scan_congr 708 _ _ cexP_cond2,
    filter_contiguous_scan_congr 708 _ _ cexP_cond3,
    filter_contiguous_scan_congr 708 _ _ cexP_cond4]
  decide

set_option maxRecDepth 100000 in
theorem cex_Q_first :
    filter_contiguous_scan 708 (fun i =>
      ax_over_threshold cexAccQ i && ay_over_threshold cexAccQ i
        && gz_below_threshold cexGyro i) = some (306, 705) := by
  rw [filter_contiguous_scan_congr 708 _ _ cexQ_cond1]
  decide

theorem cex_pre_count : get_xy_bad_align_count 708 cexAcc cexGyro = 304 := by
  unfold get_xy_bad_align_count
  rw [cex_pre_vectors]
  rfl

theorem cex_P_count : get_xy_bad_align_count 708 cexAccP cexGyro = 399 := by
  unfold get_xy_bad_align_count
  rw [cex_P_vectors]
  rfl

set_option maxRecDepth 100000 in
theorem cex_Q_count_ge : 399 ≤ get_xy_bad_align_count 708 cexAccQ cexGyro := by
  have h1 : (get_bad_alignment_vectors 708 cexAccQ cexGyro).1 = some (306, 705) :=
    cex_Q_first
  show 399 ≤ slice_count (get_bad_alignment_vectors 708 cexAccQ cexGyro).1
    + slice_count (get_bad_alignment_vectors 708 cexAccQ cexGyro).2.1
    + slice_count (get_bad_alignment_vectors 708 cexAccQ cexGyro).2.2.1
    + slice_count (get_bad_alignment_vectors 708 cexAccQ cexGyro).2.2.2
  rw [h1]
  have h2 : slice_count (some (306, 705)) = 399 := rfl
  rw [h2]
  omega

theorem cex_mean_x1 : slice_mean cexAcc 0 101 = ![(0.3 : ℝ), 0.3, 0] := by
  refine slice_mean_const _ _ _ (by norm_num) _ ?_
  intro r i hs he
  have h : i ≤ 101 := by omega
  simp [cexAcc, h]

theorem cex_mean_x2 : slice_mean cexAcc 102 203 = ![(-0.3 : ℝ), 0.3, 0] := by
  refine slice_mean_const _ _ _ (by norm_num) _ ?_
  intro r i hs he
  have n1 : ¬ i ≤ 101 := by omega
  have h : i ≤ 203 := by omega
  simp [cexAcc, n1, h]

theorem cex_mean_x3 : slice_mean cexAcc 204 305 = ![(0.3 : ℝ), -0.3, 0] := by
  refine slice_mean_const _ _ _ (by norm_num) _ ?_
  intro r i hs he
  have n1 : ¬ i ≤ 101 := by omega
  have n2 : ¬ i ≤ 203 := by omega
  have h : i ≤ 305 := by omega
  simp [cexAcc, n1, n2, h]

theorem cex_mean_x4 : slice_mean cexAcc 706 707 = ![(-0.3 : ℝ), -0.3, 0] := by
  refine slice_mean_const _ _ _ (by norm_num) _ ?_
  intro r i hs he
  have n1 : ¬ i ≤ 101 := by omega
  have n2 : ¬ i ≤ 203 := by omega
  have n3 : ¬ i ≤ 305 := by omega
  have n4 : ¬ i ≤ 705 := by omega
  simp [cexAcc, n1, n2, n3, n4]

theorem cex_angle_x1 : xyAngle ![(0.3 : ℝ), 0.3, 0] = -(Real.pi / 4) := by
  have ha : arctan2 (0.3 : ℝ) 0.3 = Real.pi / 4 := by
    unfold arctan2
    rw [if_pos (by norm_num : (0:ℝ) < 0.3)]
    rw [show (0.3 : ℝ) / 0.3 = 1 by norm_num, Real.arctan_one]
  simp only [xyAngle, Matrix.cons_val_zero, Matrix.cons_val_one, Matrix.head_cons]
  rw [if_neg (by norm_num), if_neg (by norm_num), ha]

theorem cex_angle_x2 : xyAngle ![(-0.3 : ℝ), 0.3, 0] = Real.pi / 4 := by
  have ha : arctan2 (0.3 : ℝ) (-0.3) = -Real.arctan 1 + Real.pi := by
    unfold arctan2
    rw [if_neg (by norm_num : ¬ (0:ℝ) < -0.3)]
    rw [if_pos (by norm_num : (-0.3:ℝ) < 0 ∧ (0:ℝ) ≤ 0.3)]
    rw [show (0.3 : ℝ) / (-0.3) = -1 by norm_num, Real.arctan_neg]
  simp only [xyAngle, Matrix.cons_val_zero, Matrix.cons_val_one, Matrix.head_cons]
  rw [if_pos (by norm_num), ha, Real.arctan_one]
  ring

theorem cex_angle_x3 : xyAngle ![(0.3 : ℝ), -0.3, 0] = Real.pi / 4 := by
  have ha : arctan2 (-0.3 : ℝ) 0.3 = -Real.arctan 1 := by
    unfold arctan2
    rw [if_pos (by norm_num : (0:ℝ) < 0.3)]
    rw [show (-0.3 : ℝ) / 0.3 = -1 by norm_num, Real.arctan_neg]
  simp only [xyAngle, Matrix.cons_val_zero, Matrix.cons_val_one, Matrix.head_cons]
  rw [if_neg (by norm_num), if_neg (by norm_num), ha, Real.arctan_one]
  ring

theorem cex_angle_x4 : xyAngle ![(-0.3 : ℝ), -0.3, 0] = -(7 * Real.pi / 4) := by
  have ha : arctan2 (-0.3 : ℝ) (-0.3) = Real.arctan 1 - Real.pi := by
    unfold arctan2
    rw [if_neg (by norm_num : ¬ (0:ℝ) < -0.3)]
    rw [if_neg (by norm_num : ¬ ((-0.3:ℝ) < 0 ∧ (0:ℝ) ≤ -0.3))]
    rw [if_pos (by norm_num : (-0.3:ℝ) < 0 ∧ (-0.3:ℝ) < 0)]
    rw [show (-0.3 : ℝ) / (-0.3) = 1 by norm_num]
  simp only [xyAngle, Matrix.cons_val_zero, Matrix.cons_val_one, Matrix.head_cons]
  rw [if_neg (by norm_num), if_pos (by norm_num), ha, Real.arctan_one]
  ring

theorem cex_cos_x1 : Real.cos (-(Real.pi / 4)) = Real.sqrt 2 / 2 := by
  rw [Real.cos_neg, Real.cos_pi_div_four]

theorem cex_sin_x1 : Real.sin (-(Real.pi / 4)) = -(Real.sqrt 2 / 2) := by
  rw [Real.sin_neg, Real.sin_pi_div_four]

theorem cex_cos_x4 : Real.cos (-(7 * Real.pi / 4)) = Real.sqrt 2 / 2 := by
  rw [Real.cos_neg, show 7 * Real.pi / 4 = 2 * Real.pi - Real.pi / 4 by ring,
    Real.cos_sub, Real.cos_two_pi, Real.sin_two_pi, Real.cos_pi_div_four]
  ring

theorem cex_sin_x4 : Real.sin (-(7 * Real.pi / 4)) = Real.sqrt 2 / 2 := by
  rw [Real.sin_neg, show 7 * Real.pi / 4 = 2 * Real.pi - Real.pi / 4 by ring,
    Real.sin_sub, Real.sin_two_pi, Real.cos_two_pi, Real.sin_pi_div_four]
  ring

theorem cex_rot_x1 : rotatexy 708 cexAcc cexGyro (some (0, 101))
    = (get_xy_bad_align_count 708 cexAccP cexGyro, cexAccP) := by
  rw [rotatexy_rotAcc 708 cexAcc cexGyro 0 101 (by norm_num), cex_mean_x1,
    cex_angle_x1, cex_cos_x1, cex_sin_x1]
  rfl

theorem cex_rot_x2 : rotatexy 708 cexAcc cexGyro (some (102, 203))
    = (get_xy_bad_align_count 708 cexAccQ cexGyro, cexAccQ) := by
  rw [rotatexy_rotAcc 708 cexAcc cexGyro 102 203 (by norm_num), cex_mean_x2,
    cex_angle_x2, Real.cos_pi_div_four, Real.sin_pi_div_four]
  rfl

theorem cex_rot_x3 : rotatexy 708 cexAcc cexGyro (some (204, 305))
    = (get_xy_bad_align_count 708 cexAccQ cexGyro, cexAccQ) := by
  rw [rotatexy_rotAcc 708 cexAcc cexGyro 204 305 (by norm_num), cex_mean_x3,
    cex_angle_x3, Real.cos_pi_div_four, Real.sin_pi_div_four]
  rfl

theorem cex_rot_x4 : rotatexy 708 cexAcc cexGyro (some (706, 707))
    = (get_xy_bad_align_count 708 cexAccQ cexGyro, cexAccQ) := by
  rw [rotatexy_rotAcc 708 cexAcc cexGyro 706 707 (by norm_num), cex_mean_x4,
    cex_angle_x4, cex_cos_x4, cex_sin_x4]
  rfl

theorem cex_key_x1 : (rotatexy 708 cexAcc cexGyro (some (0, 101))).1 = 399 := by
  rw [cex_rot_x1]
  exact cex_P_count

theorem cex_key_x2_ge : 399 ≤ (rotatexy 708 cexAcc cexGyro (some (102, 203))).1 := by
  rw [cex_rot_x2]
  exact cex_Q_count_ge

theorem cex_key_x3_ge : 399 ≤ (rotatexy 708 cexAcc cexGyro (some (204, 305))).1 := by
  rw [cex_rot_x3]
  exact cex_Q_count_ge

theorem cex_key_x4_ge : 399 ≤ (rotatexy 708 cexAcc cexGyro (some (706, 707))).1 := by
  rw [cex_rot_x4]
  exact cex_Q_count_ge

theorem cex_best :
    [some (102, 203), some (204, 305), some (706, 707)].foldl
      (fun b c => if (rotatexy 708 cexAcc cexGyro c).1
          < (rotatexy 708 cexAcc cexGyro b).1 then c else b)
      (some (0, 101)) = some (0, 101) := by
  have hstep : ∀ c : Option (ℕ × ℕ), 399 ≤ (rotatexy 708 cexAcc cexGyro c).1 →
      (if (rotatexy 708 cexAcc cexGyro c).1
          < (rotatexy 708 cexAcc cexGyro (some (0, 101))).1 then c else some (0, 101))
        = some (0, 101) := by
    intro c hc
    exact if_neg (by rw [cex_key_x1]; exact Nat.not_lt.mpr hc)
  simp only [List.foldl_cons, List.foldl_nil]
  rw [hstep _ cex_key_x2_ge, hstep _ cex_key_x3_ge, hstep _ cex_key_x4_ge]

/-- C5 (counterexample to the claim as stated): on the 708-sample series
cexAcc/cexGyro the bad-alignment count before correct_xy_orientation is 304,
but after it the count is 399.  The chosen candidate rotation removes the
304 misaligned stationary samples yet turns the 400-sample honest forward
acceleration stretch into a new 399-wide bad-alignment window, so the
post-correction count exceeds the pre-correction count. -/
theorem correct_xy_orientation_count_increases_C5_cex :
    get_xy_bad_align_count 708 cexAcc cexGyro = 304 ∧
    get_xy_bad_align_count 708 (correct_xy_orientation 708 cexAcc cexGyro) cexGyro
      = 399 := by
  constructor
  · exact cex_pre_count
  · have hbest : correct_xy_orientation 708 cexAcc cexGyro = cexAccP := by
      rw [correct_xy_orientation_eq]
      rw [show (get_bad_alignment_vectors 708 cexAcc cexGyro).1 = some (0, 101) by
          rw [cex_pre_vectors],
        show (get_bad_alignment_vectors 708 cexAcc cexGyro).2.1 = some (102, 203) by
          rw [cex_pre_vectors],
        show (get_bad_alignment_vectors 708 cexAcc cexGyro).2.2.1 = some (204, 305) by
          rw [cex_pre_vectors],
        show (get_bad_alignment_vectors 708 cexAcc cexGyro).2.2.2 = some (706, 707) by
          rw [cex_pre_vectors]]
      rw [cex_best, cex_rot_x1]
    rw [hbest]
    exact cex_P_count

/-- C5 (amended): the bad-alignment count after correct_xy_orientation never
exceeds the count before it PROVIDED at least one of the four candidate
windows is empty (the count after equals the minimum over the four candidate
rotations, and rotating by an empty candidate leaves the series, hence the
count, unchanged); in particular when no qualifying candidate window exists
at all the stage returns the acceleration series unchanged without raising
an error.  Without the emptiness proviso the count can strictly increase. -/
theorem correct_xy_orientation_C5 (n : ℕ) (acc gyro : Fin 3 → ℕ → ℝ)
    (h : (get_bad_alignment_vectors n acc gyro).1 = none ∨
      (get_bad_alignment_vectors n acc gyro).2.1 = none ∨
      (get_bad_alignment_vectors n acc gyro).2.2.1 = none ∨
      (get_bad_alignment_vectors n acc gyro).2.2.2 = none) :
    get_xy_bad_align_count n (correct_xy_orientation n acc gyro) gyro
        ≤ get_xy_bad_align_count n acc gyro ∧
      (get_bad_alignment_vectors n acc gyro = (none, none, none, none) →
        correct_xy_orientation n acc gyro = acc) := by
  constructor
  · have hmain : ∀ c : Option (ℕ × ℕ),
        (c = (get_bad_alignment_vectors n acc gyro).1 ∨
          c ∈ [(get_bad_alignment_vectors n acc gyro).2.1,
            (get_bad_alignment_vectors n acc gyro).2.2.1,
            (get_bad_alignment_vectors n acc gyro).2.2.2]) →
        get_xy_bad_align_count n (correct_xy_orientation n acc gyro) gyro
          ≤ (rotatexy n acc gyro c).1 := by
      intro c hc
      rw [correct_xy_orientation_eq, rotatexy_fst]
      exact foldl_min_key_le (fun c => (rotatexy n acc gyro c).1) _ _ c hc
    have hnone : ∀ c : Option (ℕ × ℕ), c = none →
        (rotatexy n acc gyro c).1 = get_xy_bad_align_count n acc gyro := by
      intro c hc
      rw [hc]
      rfl
    rcases h with h | h | h | h
    · have hle := hmain _ (Or.inl rfl)
      rwa [hnone _ h] at hle
    · have hle := hmain (get_bad_alignment_vectors n acc gyro).2.1 (Or.inr (by simp))
      rwa [hnone _ h] at hle
    · have hle := hmain (get_bad_alignment_vectors n acc gyro).2.2.1 (Or.inr (by simp))
      rwa [hnone _ h] at hle
    · have hle := hmain (get_bad_alignment_vectors n acc gyro).2.2.2 (Or.inr (by simp))
      rwa [hnone _ h] at hle
  · intro h4
    rw [correct_xy_orientation_eq]
    rw [show (get_bad_alignment_vectors n acc gyro).1 = none by rw [h4],
      show (get_bad_alignment_vectors n acc gyro).2.1 = none by rw [h4],
      show (get_bad_alignment_vectors n acc gyro).2.2.1 = none by rw [h4],
      show (get_bad_alignment_vectors n acc gyro).2.2.2 = none by rw [h4]]
    simp only [List.foldl_cons, List.foldl_nil, lt_self_iff_false, if_false]
    rfl

/-- Witness for correct_xy_orientation_C5 at the empty (length 0) series, on
which all four candidate windows are empty. -/
theorem correct_xy_orientation_C5_witness :
    ((get_bad_alignment_vectors 0 (fun _ _ => (0 : ℝ)) (fun _ _ => 0)).1 = none ∨
      (get_bad_alignment_vectors 0 (fun _ _ => (0 : ℝ)) (fun _ _ => 0)).2.1 = none ∨
      (get_bad_alignment_vectors 0 (fun _ _ => (0 : ℝ)) (fun _ _ => 0)).2.2.1 = none ∨
      (get_bad_alignment_vectors 0 (fun _ _ => (0 : ℝ)) (fun _ _ => 0)).2.2.2 = none) ∧
    (get_xy_bad_align_count 0
        (correct_xy_orientation 0 (fun _ _ => (0 : ℝ)) (fun _ _ => 0)) (fun _ _ => 0)
        ≤ get_xy_bad_align_count 0 (fun _ _ => (0 : ℝ)) (fun _ _ => 0) ∧
      (get_bad_alignment_vectors 0 (fun _ _ => (0 : ℝ)) (fun _ _ => 0)
          = (none, none, none, none) →
        correct_xy_orientation 0 (fun _ _ => (0 : ℝ)) (fun _ _ => 0)
          = fun _ _ => 0)) :=
  ⟨Or.inl rfl,
    correct_xy_orientation_C5 0 (fun _ _ => 0) (fun _ _ => 0) (Or.inl rfl)⟩
